import Mathlib

/-!
Shallow embedding of the yap-cc backend core (src/backend/src) used to check
the specification claims: the tag-aware interaction parser
(core/interaction_parser.py), the interaction registry (tools/interaction.py),
the conversation turn engine (core/session.py, Session.send, and the
interaction loop of api/websocket/handlers.py), and the claude CLI protocol
translator (providers/claude_cli.py).

Text is modelled as a list of characters.  The uuid4 identifiers of the source
are modelled by a natural-number counter: the only property the code relies on
is freshness.  Dicts carried inside events are association lists.  Wall-clock
timestamps are dropped; completion of a tool call is a Boolean.
-/

namespace Yap

/-- ASCII whitespace as matched by the backslash-s class of the Python
regexes and by str.strip in the source. -/
def pyWs (c : Char) : Bool :=
  c == ' ' || c == '\t' || c == '\n' || c == '\r' || c == '\x0b' || c == '\x0c'

/-- Python str.strip(): drop whitespace from both ends. -/
def pyStrip (s : List Char) : List Char :=
  ((s.dropWhile pyWs).reverse.dropWhile pyWs).reverse

/-- Python str.split with a one-character separator. -/
def splitOnChar (sep : Char) : List Char → List (List Char)
  | [] => [[]]
  | c :: rest =>
    let r := splitOnChar sep rest
    if c == sep then [] :: r
    else
      match r with
      | [] => [[c]]
      | h :: t => (c :: h) :: t

/-- One question inside an ask-form block (FormQuestion of core/events.py). -/
structure FormQuestion where
  name : List Char
  question : List Char
  input_type : List Char
  options : List (List Char)
deriving DecidableEq

/-- The event model of core/events.py (Event union).  SessionIdEvent is the
internal-only variant. -/
inductive Event where
  | textChunk (content : List Char)
  | toolStart (tool_call_id : Nat) (tool : List Char)
      (input : List (List Char × List Char))
  | toolDone (tool_call_id : Nat) (tool : List Char) (output : List Char)
      (error : Option (List Char)) (input : List (List Char × List Char))
  | done
  | error (message : List Char)
  | sessionId (cli_session_id : List Char)
  | interactionRequest (request_id : Nat) (question : List Char)
      (input_type : List Char) (options : List (List Char))
  | interactionForm (request_id : Nat) (questions : List FormQuestion)
      (paginated : Bool)
deriving DecidableEq

/-- Literal "<ask". -/
def askLit : List Char := ['<', 'a', 's', 'k']

/-- Literal "<ask-form". -/
def askFormLit : List Char := ['<', 'a', 's', 'k', '-', 'f', 'o', 'r', 'm']

/-- Literal "</ask>". -/
def closeAskLit : List Char := ['<', '/', 'a', 's', 'k', '>']

/-- Literal "</ask-form>". -/
def closeFormLit : List Char := ['<', '/', 'a', 's', 'k', '-', 'f', 'o', 'r', 'm', '>']

/-- _POSSIBLE_PREFIXES of interaction_parser.py: tails of both tag names that
could be split across chunk boundaries, longest first. -/
def possibleAskHeads : List (List Char) :=
  [askFormLit,
   ['<', 'a', 's', 'k', '-', 'f', 'o', 'r'],
   ['<', 'a', 's', 'k', '-', 'f', 'o'],
   ['<', 'a', 's', 'k', '-', 'f'],
   ['<', 'a', 's', 'k', '-'],
   askLit,
   ['<', 'a', 's'],
   ['<', 'a'],
   ['<']]

/-- _partial_ask_suffix: the length of the longest trailing run of the buffer
that might still grow into an ask tag. -/
def askSuffixLen (buf : List Char) : Nat :=
  match possibleAskHeads.find? (fun p => p.isSuffixOf buf) with
  | some p => p.length
  | none => 0

/-- Lookahead class of _BARE_ASK_START: the char right after "<ask". -/
def lookBare (c : Char) : Bool := c == '>' || pyWs c

/-- Lookahead class of _FORM_ASK_START: the char right after "<ask-form". -/
def lookForm (c : Char) : Bool := c == '>' || c == '/' || pyWs c

/-- A tag-start regex: the literal tag opener followed by a lookahead char. -/
def tagStartAt (lit : List Char) (look : Char → Bool) (l : List Char) : Bool :=
  lit.isPrefixOf l &&
    (match l.drop lit.length with
     | c :: _ => look c
     | [] => false)

/-- _BARE_ASK_START matches at the head of l. -/
def bareAskStartAt (l : List Char) : Bool := tagStartAt askLit lookBare l

/-- _FORM_ASK_START matches at the head of l. -/
def formAskStartAt (l : List Char) : Bool := tagStartAt askFormLit lookForm l

/-- "</ask>" occurs at the head of l. -/
def closeAskAt (l : List Char) : Bool := closeAskLit.isPrefixOf l

/-- "</ask-form>" occurs at the head of l. -/
def closeFormAt (l : List Char) : Bool := closeFormLit.isPrefixOf l

/-- A gt character at the head of l (str.find of ">"). -/
def gtAt (l : List Char) : Bool :=
  match l with
  | '>' :: _ => true
  | _ => false

/-- Index of the first position of l whose suffix satisfies p — the position
returned by re.search or str.find. -/
def findStart (p : List Char → Bool) : List Char → Option Nat
  | [] => none
  | c :: rest => if p (c :: rest) then some 0 else (findStart p rest).map (· + 1)

/-- _first_tag_pos: position and kind (false = bare ask, true = form) of the
earliest interaction tag; the bare form wins ties. -/
def firstTagPos (buf : List Char) : Option (Nat × Bool) :=
  match findStart bareAskStartAt buf, findStart formAskStartAt buf with
  | none, none => none
  | some a, none => some (a, false)
  | none, some f => some (f, true)
  | some a, some f => if a ≤ f then some (a, false) else some (f, true)

/-- Consume an exact literal, returning the rest of the input. -/
def dropLit : List Char → List Char → Option (List Char)
  | [], l => some l
  | p :: ps, c :: cs => if c == p then dropLit ps cs else none
  | _ :: _, [] => none

/-- One optional attribute group of _ASK_RE and _FORM_CHILD_RE: one or more
whitespace chars, the literal key, an equals sign and opening quote, then the
value up to the first quote.  Both repetitions of the regex are forced, so the
group is deterministic.  Returns (value, rest). -/
def attrGroup (key : List Char) (l : List Char) : Option (List Char × List Char) :=
  let ws := l.takeWhile pyWs
  let l1 := l.dropWhile pyWs
  if ws.length = 0 then none
  else
    match dropLit (key ++ ['=', '"']) l1 with
    | none => none
    | some l2 =>
      let v := l2.takeWhile (fun c => !(c == '"'))
      match l2.dropWhile (fun c => !(c == '"')) with
      | '"' :: l3 => some (v, l3)
      | _ => none

/-- The common tail of both ask regexes: a maximal run of non-gt chars, a gt,
then a lazy question body up to the first "</ask>".  Returns the question and
the rest of the input after the close tag. -/
def askTail (l : List Char) : Option (List Char × List Char) :=
  match l.dropWhile (fun c => !(c == '>')) with
  | '>' :: l2 =>
    match findStart closeAskAt l2 with
    | some i => some (l2.take i, l2.drop (i + closeAskLit.length))
    | none => none
  | _ => none

/-- An optional group: when used, the attribute must parse; when unused, the
input is unchanged and the capture is none. -/
def optAttr (use : Bool) (key : List Char) (l : List Char) :
    Option (Option (List Char) × List Char) :=
  if use then (attrGroup key l).map (fun r => (some r.1, r.2)) else some (none, l)

/-- Semantics of _ASK_RE.match on a candidate tag: the literal "<ask", the
negative lookahead for a dash, then the two optional groups in backtracking
order (a present group is preferred over an absent one).  Returns the type
capture, the options capture and the question body. -/
def askMatch (t : List Char) :
    Option (Option (List Char) × Option (List Char) × List Char) :=
  match dropLit askLit t with
  | none => none
  | some r =>
    match r with
    | '-' :: _ => none
    | _ =>
      let attempt := fun (uT uO : Bool) =>
        match optAttr uT (['t', 'y', 'p', 'e']) r with
        | none => none
        | some (ty, r1) =>
          match optAttr uO (['o', 'p', 't', 'i', 'o', 'n', 's']) r1 with
          | none => none
          | some (op, r2) =>
            match askTail r2 with
            | none => none
            | some (q, _) => some (ty, op, q)
      match attempt true true with
      | some x => some x
      | none =>
        match attempt true false with
        | some x => some x
        | none =>
          match attempt false true with
          | some x => some x
          | none => attempt false false

/-- The captures of one _FORM_CHILD_RE match. -/
structure RawChild where
  name : Option (List Char)
  atype : Option (List Char)
  opts : Option (List Char)
  question : List Char
deriving DecidableEq

/-- Semantics of one anchored _FORM_CHILD_RE match: like askMatch with a
leading optional name group; also returns the rest of the input after the
match, for the finditer scan. -/
def formChildMatch (t : List Char) : Option (RawChild × List Char) :=
  match dropLit askLit t with
  | none => none
  | some r =>
    match r with
    | '-' :: _ => none
    | _ =>
      let attempt := fun (uN uT uO : Bool) =>
        match optAttr uN (['n', 'a', 'm', 'e']) r with
        | none => none
        | some (nm, r1) =>
          match optAttr uT (['t', 'y', 'p', 'e']) r1 with
          | none => none
          | some (ty, r2) =>
            match optAttr uO (['o', 'p', 't', 'i', 'o', 'n', 's']) r2 with
            | none => none
            | some (op, r3) =>
              match askTail r3 with
              | none => none
              | some (q, rest) => some (RawChild.mk nm ty op q, rest)
      match attempt true true true with
      | some x => some x
      | none =>
        match attempt true true false with
        | some x => some x
        | none =>
          match attempt true false true with
          | some x => some x
          | none =>
            match attempt true false false with
            | some x => some x
            | none =>
              match attempt false true true with
              | some x => some x
              | none =>
                match attempt false true false with
                | some x => some x
                | none =>
                  match attempt false false true with
                  | some x => some x
                  | none => attempt false false false

/-- finditer of _FORM_CHILD_RE: scan left to right, collecting
non-overlapping matches.  Fuel-indexed; every step strictly shortens the
input, so length-plus-one fuel is enough. -/
def scanChildren : Nat → List Char → List RawChild
  | 0, _ => []
  | _, [] => []
  | fuel + 1, c :: rest =>
    match formChildMatch (c :: rest) with
    | some (m, after) => m :: scanChildren fuel after
    | none => scanChildren fuel rest

/-- All _FORM_CHILD_RE matches inside the inner content of a form. -/
def formChildren (inner : List Char) : List RawChild :=
  scanChildren (inner.length + 1) inner

/-- The literal "text". -/
def textLit : List Char := ['t', 'e', 'x', 't']

/-- _VALID_TYPES. -/
def validTypes : List (List Char) :=
  [textLit,
   ['c', 'o', 'n', 'f', 'i', 'r', 'm', 'a', 't', 'i', 'o', 'n'],
   ['s', 'i', 'n', 'g', 'l', 'e', '_', 'c', 'h', 'o', 'i', 'c', 'e'],
   ['m', 'u', 'l', 't', 'i', '_', 'c', 'h', 'o', 'i', 'c', 'e']]

/-- atype handling of the source: a missing or empty capture falls back to
"text", and any value outside _VALID_TYPES collapses to "text". -/
def normType (raw : Option (List Char)) : List Char :=
  let a :=
    match raw with
    | some v => if v = [] then textLit else v
    | none => textLit
  if validTypes.contains a then a else textLit

/-- _options applied to (capture or ""): pipe-split, strip each entry and
drop the empty ones; an empty raw value yields no options. -/
def optionsOf (raw : Option (List Char)) : List (List Char) :=
  match raw with
  | none => []
  | some r =>
    if r = [] then []
    else ((splitOnChar ('|') r).map pyStrip).filter (fun o => !o.isEmpty)

/-- Decimal digits of a natural number, for the synthesized q1, q2, ... names. -/
def natDigits (n : Nat) : List Char := (toString n).data

/-- Children of an ask-form, with enumerate: a missing or empty name becomes
q followed by the one-based index, and all captures are normalized exactly as
in _try_extract_ask_form. -/
def mkQuestion (i : Nat) (m : RawChild) : FormQuestion :=
  let nm :=
    match m.name with
    | some v => if v = [] then 'q' :: natDigits (i + 1) else v
    | none => 'q' :: natDigits (i + 1)
  FormQuestion.mk (pyStrip nm) (pyStrip m.question) (normType m.atype) (optionsOf m.opts)

/-- enumerate over the raw child matches. -/
def childrenToQuestions (ms : List RawChild) : List FormQuestion :=
  ms.enum.map (fun p => mkQuestion p.1 p.2)

/-- Case-insensitive literal prefix (re.IGNORECASE on ASCII). -/
def ciPrefixOf : List Char → List Char → Bool
  | [], _ => true
  | _ :: _, [] => false
  | p :: ps, c :: cs => if c.toLower == p.toLower then ciPrefixOf ps cs else false

/-- re.search of the literal paginated="true" with IGNORECASE inside the
opening tag. -/
def hasPaginatedTrue (openingTag : List Char) : Bool :=
  (findStart (fun l => ciPrefixOf ("paginated=\"true\"".data) l) openingTag).isSome

/-- Result of extracting one complete interaction tag from the buffer: the
text before it, the emitted event, its request id, and the rest of the
buffer. -/
structure Extracted where
  before : List Char
  event : Event
  rid : Nat
  after : List Char

/-- _try_extract_bare_ask: locate the earliest bare ask start, require its
close tag, and run _ASK_RE.match over the candidate; a failed match means the
tag is treated as still incomplete.  reqId plays the role of the fresh uuid
handed to register_interaction. -/
def tryExtractBareAsk (buf : List Char) (reqId : Nat) : Option Extracted :=
  match findStart bareAskStartAt buf with
  | none => none
  | some pos =>
    let rest := buf.drop pos
    match findStart closeAskAt rest with
    | none => none
    | some closeRel =>
      let fullTag := rest.take (closeRel + closeAskLit.length)
      match askMatch fullTag with
      | none => none
      | some (ty, op, q) =>
        some (Extracted.mk (buf.take pos)
          (Event.interactionRequest reqId (pyStrip q) (normType ty) (optionsOf op))
          reqId
          (rest.drop (closeRel + closeAskLit.length)))

/-- _try_extract_ask_form: locate the earliest form start and its close tag,
parse the children between the first gt and the close tag, and refuse a form
with zero valid children. -/
def tryExtractAskForm (buf : List Char) (reqId : Nat) : Option Extracted :=
  match findStart formAskStartAt buf with
  | none => none
  | some pos =>
    let rest := buf.drop pos
    match findStart closeFormAt rest with
    | none => none
    | some closeRel =>
      match findStart gtAt rest with
      | none => none
      | some openRel =>
        if closeRel ≤ openRel then none
        else
          let inner := (rest.take closeRel).drop (openRel + 1)
          let questions := childrenToQuestions (formChildren inner)
          if questions = [] then none
          else
            let openingTag := rest.take (openRel + 1)
            some (Extracted.mk (buf.take pos)
              (Event.interactionForm reqId questions (hasPaginatedTrue openingTag))
              reqId
              (rest.drop (closeRel + closeFormLit.length)))

/-- _process_buffer: greedily extract every complete tag from the front of
the buffer; when no tag start is found, flush everything except a possible
partial tag head; when a start is found but the tag is incomplete, flush the
text before it and keep the rest.  Fuel-indexed: every extraction strictly
shortens the buffer, so length-plus-one fuel is enough.  The nextId counter
is the uuid source; pending collects the request ids in emission order. -/
def processBufferF : Nat → List Char → Nat → List Nat →
    List Event × List Char × Nat × List Nat
  | 0, buf, nextId, pending => ([], buf, nextId, pending)
  | fuel + 1, buf, nextId, pending =>
    match firstTagPos buf with
    | none =>
      let keep := askSuffixLen buf
      let safe := buf.take (buf.length - keep)
      ((if safe = [] then [] else [Event.textChunk safe]),
        buf.drop (buf.length - keep), nextId, pending)
    | some (pos, isForm) =>
      match (if isForm then tryExtractAskForm buf nextId else tryExtractBareAsk buf nextId) with
      | none =>
        ((if pos = 0 then [] else [Event.textChunk (buf.take pos)]),
          buf.drop pos, nextId, pending)
      | some e =>
        let r := processBufferF fuel e.after (nextId + 1) (pending ++ [e.rid])
        ((if e.before = [] then [] else [Event.textChunk e.before]) ++ e.event :: r.1,
          r.2.1, r.2.2.1, r.2.2.2)

/-- _process_buffer at its natural fuel. -/
def processBuf (buf : List Char) (nextId : Nat) (pending : List Nat) :
    List Event × List Char × Nat × List Nat :=
  processBufferF (buf.length + 1) buf nextId pending

/-- Parser state of one parse_interactions generator: the accumulation
buffer, the uuid counter and the pending request ids. -/
structure PS where
  buf : List Char
  nextId : Nat
  pending : List Nat
deriving DecidableEq

/-- The flush performed before forwarding any non-text event: emit the safe
text, keep a partial tag head or an incomplete tag. -/
def flushForNonText (buf : List Char) : List Event × List Char :=
  match firstTagPos buf with
  | none =>
    let keep := askSuffixLen buf
    let safe := buf.take (buf.length - keep)
    ((if safe = [] then [] else [Event.textChunk safe]), buf.drop (buf.length - keep))
  | some (pos, _) =>
    ((if pos = 0 then [] else [Event.textChunk (buf.take pos)]), buf.drop pos)

/-- parse_interactions over a finished input event list.  Text chunks feed
the buffer and trigger a greedy extraction pass; any other event forces the
non-text flush first; the terminal Done runs one more extraction pass, emits
the whole leftover buffer as raw text, and is forwarded only when no
interaction is pending — after a Done the generator returns, so later input
is ignored. -/
def parseInteractions (s : PS) : List Event → List Event × PS
  | [] => ([], s)
  | e :: rest =>
    match e with
    | Event.textChunk c =>
      let r := processBuf (s.buf ++ c) s.nextId s.pending
      let m := parseInteractions (PS.mk r.2.1 r.2.2.1 r.2.2.2) rest
      (r.1 ++ m.1, m.2)
    | Event.done =>
      let f := flushForNonText s.buf
      let r := processBuf f.2 s.nextId s.pending
      ((f.1 ++ r.1 ++ (if r.2.1 = [] then [] else [Event.textChunk r.2.1])
          ++ (if r.2.2.2 = [] then [Event.done] else [])),
        PS.mk r.2.1 r.2.2.1 r.2.2.2)
    | _ =>
      let f := flushForNonText s.buf
      let m := parseInteractions (PS.mk f.2 s.nextId s.pending) rest
      (f.1 ++ e :: m.1, m.2)

/-- Feed a list of text deliveries to a fresh Tag Parser. -/
def runChunks (cs : List (List Char)) : List Event :=
  (parseInteractions (PS.mk [] 0 []) (cs.map Event.textChunk)).1

/-- Is the event an InteractionRequest or InteractionForm? -/
def isInteractionEv : Event → Bool
  | Event.interactionRequest _ _ _ _ => true
  | Event.interactionForm _ _ _ => true
  | _ => false

/-- Some interaction event occurs in the list. -/
def hasInteraction (l : List Event) : Bool := l.any isInteractionEv

/-- Concatenated text content of all TextChunk events in the list. -/
def textConcat : List Event → List Char
  | [] => []
  | Event.textChunk s :: rest => s ++ textConcat rest
  | _ :: rest => textConcat rest

/-- A single TextChunk when the content is non-empty, nothing otherwise. -/
def textOpt (s : List Char) : List Event :=
  if s = [] then [] else [Event.textChunk s]

/-- Prepend text content onto an event list, merging with a leading
TextChunk and dropping empty content. -/
def consText (s : List Char) (l : List Event) : List Event :=
  if s = [] then l
  else
    match l with
    | Event.textChunk t :: r => Event.textChunk (s ++ t) :: r
    | _ => Event.textChunk s :: l

/-- Normal form of an event sequence: adjacent TextChunks are coalesced and
empty TextChunks are dropped; all other events are untouched. -/
def norm : List Event → List Event
  | [] => []
  | Event.textChunk s :: rest => consText s (norm rest)
  | e :: rest => e :: norm rest

/-- The interaction registry of tools/interaction.py: request id to a
single-slot channel (asyncio.Queue, maxsize one).  none means registered and
empty; some v means the slot holds the undelivered value v. -/
abbrev Registry := List (List Char × Option (List Char))

/-- Python dict lookup. -/
def regFind (r : Registry) (k : List Char) : Option (Option (List Char)) :=
  (r.find? (fun e => e.1 == k)).map (fun e => e.2)

/-- Python dict assignment (overwrites an existing key). -/
def regSet (r : Registry) (k : List Char) (v : Option (List Char)) : Registry :=
  if (r.find? (fun e => e.1 == k)).isSome
  then r.map (fun e => if e.1 == k then (k, v) else e)
  else r ++ [(k, v)]

/-- register_interaction: pre-register a fresh empty queue for the id. -/
def register_interaction (r : Registry) (k : List Char) : Registry :=
  regSet r k none

/-- Outcome of resolve_interaction as seen by its caller. -/
inductive ResolveOutcome where
  | ok (r : Registry)
  | queueFull
deriving DecidableEq

/-- resolve_interaction: q.put_nowait(value) when the id is present — which
raises QueueFull when the single slot already holds a value — and a silent
no-op when the id is unknown. -/
def resolve_interaction (r : Registry) (k : List Char) (v : List Char) :
    ResolveOutcome :=
  match regFind r k with
  | none => ResolveOutcome.ok r
  | some none => ResolveOutcome.ok (regSet r k (some v))
  | some (some _) => ResolveOutcome.queueFull

/-- Message roles of core/models.py. -/
inductive Role where
  | user
  | assistant
deriving DecidableEq

/-- A ToolCall of core/models.py; completed stands for a set completed_at. -/
structure ToolCall where
  id : Nat
  tool : List Char
  input : List (List Char × List Char)
  output : Option (List Char)
  error : Option (List Char)
  completed : Bool
deriving DecidableEq

/-- A Message of core/models.py (timestamp dropped). -/
structure Msg where
  role : Role
  content : List Char
  tool_calls : List ToolCall
deriving DecidableEq

/-- The SessionState fields touched by Session.send, plus a counter of
store.save calls standing for persistence. -/
structure SessState where
  title : List Char
  messages : List Msg
  cli_session_id : Option (List Char)
  saves : Nat
deriving DecidableEq

/-- The default title of a fresh session. -/
def newConversation : List Char :=
  ['N', 'e', 'w', ' ', 'c', 'o', 'n', 'v', 'e', 'r', 's', 'a', 't', 'i', 'o', 'n']

/-- _auto_title: first line of the stripped text, truncated to 60 chars with
an ellipsis, falling back to the default title. -/
def autoTitle (text : List Char) : List Char :=
  let title := (pyStrip text).takeWhile (fun c => !(c == '\n'))
  let title2 := if 60 < title.length then title.take 59 ++ ['…'] else title
  if title2 = [] then newConversation else title2

/-- The accumulator of Session.send._gen: assistant content, the tool-call
list being built, the ids of still-open tool calls, and the flag that asks
for a paragraph separator when text resumes after a tool call. -/
structure SendAcc where
  content : List Char
  toolCalls : List ToolCall
  inFlight : List Nat
  hadTool : Bool

/-- Update the most recently opened tool call with the given id — the entry
the in_flight_tools dict points at. -/
def updateLastTC (l : List ToolCall) (i : Nat) (f : ToolCall → ToolCall) :
    List ToolCall :=
  match l with
  | [] => []
  | tc :: rest =>
    if rest.any (fun x => x.id == i) then tc :: updateLastTC rest i f
    else if tc.id == i then f tc :: rest
    else tc :: rest

/-- The paragraph separator inserted when text resumes after a tool call. -/
def paraSep : List Char := ['\n', '\n']

/-- One step of Session.send._gen on a provider event: SessionIdEvent is
swallowed into the state; a TextChunk accumulates (with the separator when
resuming after tool output); ToolStart opens a ToolCall; ToolDone closes the
matching open one, overwriting its input when the event carries a non-empty
one; Done finalizes and persists the assistant message built so far.  Every
event except SessionIdEvent is re-yielded. -/
def sendStep (st : SessState) (a : SendAcc) (e : Event) :
    SessState × SendAcc × List Event :=
  match e with
  | Event.sessionId sid =>
    (SessState.mk st.title st.messages (some sid) st.saves, a, [])
  | Event.textChunk c =>
    let content :=
      (if a.hadTool && !a.content.isEmpty then a.content ++ paraSep else a.content) ++ c
    (st, SendAcc.mk content a.toolCalls a.inFlight false, [e])
  | Event.toolStart i tool input =>
    (st,
     SendAcc.mk a.content (a.toolCalls ++ [ToolCall.mk i tool input none none false])
       (a.inFlight ++ [i]) a.hadTool,
     [e])
  | Event.toolDone i _tool output err input =>
    let a2 :=
      if a.inFlight.contains i then
        SendAcc.mk a.content
          (updateLastTC a.toolCalls i (fun tc =>
            ToolCall.mk tc.id tc.tool (if input.isEmpty then tc.input else input)
              (some output) err true))
          (a.inFlight.erase i) true
      else
        SendAcc.mk a.content a.toolCalls a.inFlight true
    (st, a2, [e])
  | Event.done =>
    (SessState.mk st.title
       (st.messages ++ [Msg.mk Role.assistant a.content a.toolCalls])
       st.cli_session_id (st.saves + 1),
     a, [e])
  | _ => (st, a, [e])

/-- Fold sendStep over the provider events. -/
def sendGo (st : SessState) (a : SendAcc) : List Event →
    SessState × SendAcc × List Event
  | [] => (st, a, [])
  | e :: rest =>
    let r := sendStep st a e
    let m := sendGo r.1 r.2.1 rest
    (m.1, m.2.1, r.2.2 ++ m.2.2)

/-- Session.send: auto-title on the first message, append the user message,
fold the provider events, and — when the provider raises mid-stream — persist
the partial accumulation only when the assistant text content is non-empty,
then emit Error.  crash carries the exception message when the provider event
list was cut short by an exception. -/
def sendFold (st : SessState) (message : List Char) (evs : List Event)
    (crash : Option (List Char)) : SessState × List Event :=
  let st0 :=
    if st.messages.isEmpty && st.title == newConversation
    then SessState.mk (autoTitle message) st.messages st.cli_session_id st.saves
    else st
  let st1 := SessState.mk st0.title (st0.messages ++ [Msg.mk Role.user message []])
    st0.cli_session_id st0.saves
  let r := sendGo st1 (SendAcc.mk [] [] [] false) evs
  match crash with
  | none => (r.1, r.2.2)
  | some msg =>
    if r.2.1.content.isEmpty then (r.1, r.2.2 ++ [Event.error msg])
    else
      (SessState.mk r.1.title
        (r.1.messages ++ [Msg.mk Role.assistant r.2.1.content r.2.1.toolCalls])
        r.1.cli_session_id (r.1.saves + 1),
       r.2.2 ++ [Event.error msg])

/-- The timeout placeholder answer of _stream_message. -/
def noResponse : List Char :=
  ['(', 'n', 'o', ' ', 'r', 'e', 's', 'p', 'o', 'n', 's', 'e', ')']

/-- The interaction loop of _stream_message: run send through a fresh Tag
Parser; when interactions are pending afterwards, take the next client answer
(or the timeout placeholder) as the next message and fire a follow-up send on
the next provider invocation.  Invocations are the per-send provider event
lists; pid threads the uuid counter. -/
def streamLoop (st : SessState) (pid : Nat) (message : List Char) :
    List (List Event) → List (List Char) → SessState
  | [], _ => st
  | inv :: invs, answers =>
    let r := sendFold st message inv none
    let p := parseInteractions (PS.mk [] pid []) r.2
    if p.2.pending = [] then r.1
    else streamLoop r.1 p.2.nextId (answers.headD noResponse) invs answers.tail

/-- A content block inside a content_block_start stream event of the claude
CLI protocol. -/
inductive CliBlock where
  | text
  | toolUse (id : List Char) (name : List Char)
  | otherBlock
deriving DecidableEq

/-- A stream_event line payload. -/
inductive CliStreamEv where
  | blockStart (b : CliBlock)
  | textDelta (s : List Char)
  | otherDelta
  | messageStop
  | otherStream
deriving DecidableEq

/-- A content item of an assistant or user message line.  A tool_result
content is either a plain string or a list of text fields of dict parts. -/
inductive CliItem where
  | toolUseItem (id : List Char) (input : List (List Char × List Char))
  | toolResultItem (tool_use_id : List Char) (isError : Bool)
      (content : Sum (List Char) (List (List Char)))
  | otherItem
deriving DecidableEq

/-- One parsed line of the line-delimited JSON stream consumed by
ClaudeCliProvider.run; skippedLine stands for a malformed JSON line. -/
inductive CliLine where
  | systemInit (session_id : Option (List Char))
  | streamEvent (e : CliStreamEv)
  | assistantLine (blocks : List CliItem)
  | userLine (blocks : List CliItem)
  | resultLine (session_id : Option (List Char))
  | skippedLine
deriving DecidableEq

/-- One pending_tools entry: tool_use_id mapped to the render id, the tool
name, and the recorded full input once the later complete assistant line
supplied it. -/
structure PendingTool where
  tool_use_id : List Char
  render_id : Nat
  name : List Char
  input : Option (List (List Char × List Char))
deriving DecidableEq

/-- The local state of ClaudeCliProvider.run._gen; nextUuid models uuid4. -/
structure CliSt where
  captured : Option (List Char)
  sidEmitted : Bool
  currentText : Option Nat
  nextUuid : Nat
  pendingTools : List PendingTool
deriving DecidableEq

/-- Python truthiness of an optional string. -/
def truthyS : Option (List Char) → Bool
  | some s => !s.isEmpty
  | none => false

/-- Result text of a tool_result block: str(content) for a string, the
joined text fields for a list. -/
def resultTextOf : Sum (List Char) (List (List Char)) → List Char
  | Sum.inl s => s
  | Sum.inr parts => parts.foldl (fun acc p => acc ++ p) []

/-- Python dict assignment into pending_tools (overwrites an existing id). -/
def regSetTool (pt : List PendingTool) (k : List Char)
    (render : Nat) (name : List Char) : List PendingTool :=
  if (pt.find? (fun e => e.tool_use_id == k)).isSome
  then pt.map (fun e => if e.tool_use_id == k then PendingTool.mk k render name none else e)
  else pt ++ [PendingTool.mk k render name none]

/-- The assistant-line pass: record the fully-resolved input of every
tool_use block whose id is already pending; nothing is emitted. -/
def recordInputs (pt : List PendingTool) (blocks : List CliItem) :
    List PendingTool :=
  blocks.foldl
    (fun acc b =>
      match b with
      | CliItem.toolUseItem i input =>
        acc.map (fun e =>
          if e.tool_use_id == i
          then PendingTool.mk e.tool_use_id e.render_id e.name (some input)
          else e)
      | _ => acc)
    pt

/-- The user-line pass: close every matching open tool call.  The yielded
ToolDoneEvent is built exactly as in the source — without an input argument,
so the input field is the empty-dict default of the event model, even though
the recorded full input sits unused in the popped entry. -/
def processToolResults (pt : List PendingTool) (blocks : List CliItem) :
    List PendingTool × List Event :=
  blocks.foldl
    (fun acc b =>
      match b with
      | CliItem.toolResultItem i isError content =>
        let resultText := resultTextOf content
        match acc.1.find? (fun e => e.tool_use_id == i) with
        | some entry =>
          (acc.1.filter (fun e => !(e.tool_use_id == i)),
           acc.2 ++ [Event.toolDone entry.render_id entry.name resultText
             (if isError then some resultText else none) []])
        | none => acc
      | _ => acc)
    (pt, [])

/-- One line of the claude CLI protocol translation (the body of the
async-for loop of ClaudeCliProvider.run._gen). -/
def cliStep (s : CliSt) (l : CliLine) : CliSt × List Event :=
  match l with
  | CliLine.systemInit sid =>
    if truthyS sid && !s.captured.isSome then
      match sid with
      | some v =>
        (CliSt.mk (some v) true s.currentText s.nextUuid s.pendingTools,
         [Event.sessionId v])
      | none => (s, [])
    else (s, [])
  | CliLine.streamEvent ev =>
    match ev with
    | CliStreamEv.blockStart CliBlock.text =>
      (CliSt.mk s.captured s.sidEmitted (some s.nextUuid) (s.nextUuid + 1) s.pendingTools, [])
    | CliStreamEv.blockStart (CliBlock.toolUse i name) =>
      (CliSt.mk s.captured s.sidEmitted none (s.nextUuid + 1)
        (regSetTool s.pendingTools i s.nextUuid name),
       [Event.toolStart s.nextUuid name []])
    | CliStreamEv.blockStart CliBlock.otherBlock => (s, [])
    | CliStreamEv.textDelta t =>
      if s.currentText.isSome then (s, [Event.textChunk t]) else (s, [])
    | CliStreamEv.otherDelta => (s, [])
    | CliStreamEv.messageStop =>
      (CliSt.mk s.captured s.sidEmitted none s.nextUuid s.pendingTools, [])
    | CliStreamEv.otherStream => (s, [])
  | CliLine.assistantLine blocks =>
    (CliSt.mk s.captured s.sidEmitted s.currentText s.nextUuid
      (recordInputs s.pendingTools blocks), [])
  | CliLine.userLine blocks =>
    let r := processToolResults s.pendingTools blocks
    (CliSt.mk s.captured s.sidEmitted s.currentText s.nextUuid r.1, r.2)
  | CliLine.resultLine sid =>
    let s1 := CliSt.mk s.captured s.sidEmitted none s.nextUuid s.pendingTools
    if truthyS sid && !s.sidEmitted then
      match sid with
      | some v =>
        (CliSt.mk (some v) s1.sidEmitted s1.currentText s1.nextUuid s1.pendingTools,
         [Event.sessionId v, Event.done])
      | none => (s1, [Event.done])
    else if truthyS sid then
      match sid with
      | some v =>
        (CliSt.mk (some v) s1.sidEmitted s1.currentText s1.nextUuid s1.pendingTools,
         [Event.done])
      | none => (s1, [Event.done])
    else (s1, [Event.done])
  | CliLine.skippedLine => (s, [])

/-- Fold of cliStep over a parsed line stream. -/
def cliGo (s : CliSt) : List CliLine → CliSt × List Event
  | [] => (s, [])
  | l :: rest =>
    let r := cliStep s l
    let m := cliGo r.1 rest
    (m.1, r.2 ++ m.2)

/-- Run the translator from the initial state of ClaudeCliProvider.run. -/
def cliRun (lines : List CliLine) : CliSt × List Event :=
  cliGo (CliSt.mk none false none 0 []) lines

/-- A turn task reference held by the websocket loop. -/
structure TaskRef where
  id : Nat
  finished : Bool
deriving DecidableEq

/-- The per-connection state of websocket_endpoint: the stop event and the
current stream task. -/
structure ConnSt where
  stopSet : Bool
  currentTask : Option TaskRef
deriving DecidableEq

/-- An incoming client message of the transport loop. -/
inductive ClientMsg where
  | ping
  | stop
  | userMessage (content : List Char)
  | interactionResponse (request_id : List Char) (value : List Char)
  | unknownMsg
deriving DecidableEq

/-- Observable actions of one loop iteration. -/
inductive WsEffect where
  | sendPong
  | cancelTask (id : Nat)
  | startTask (content : List Char) (id : Nat)
  | resolveCall (request_id : List Char) (value : List Char)
deriving DecidableEq

/-- One iteration of the websocket_endpoint dispatch on a received client
message.  A user_message is stripped first; an empty result skips the whole
branch (continue), so nothing is cancelled and nothing is started.  A
non-empty user_message cancels any unfinished in-flight task, clears the stop
event and starts a new stream task carrying the stripped content. -/
def handleClientMsg (st : ConnSt) (nextTaskId : Nat) (m : ClientMsg) :
    ConnSt × List WsEffect :=
  match m with
  | ClientMsg.ping => (st, [WsEffect.sendPong])
  | ClientMsg.stop =>
    match st.currentTask with
    | some t =>
      if t.finished then (st, [])
      else (ConnSt.mk true st.currentTask, [WsEffect.cancelTask t.id])
    | none => (st, [])
  | ClientMsg.userMessage content =>
    let c := pyStrip content
    if c = [] then (st, [])
    else
      let cancels :=
        match st.currentTask with
        | some t => if t.finished then [] else [WsEffect.cancelTask t.id]
        | none => []
      (ConnSt.mk false (some (TaskRef.mk nextTaskId false)),
       cancels ++ [WsEffect.startTask c nextTaskId])
  | ClientMsg.interactionResponse rid v => (st, [WsEffect.resolveCall rid v])
  | ClientMsg.unknownMsg => (st, [])

/-! ### Facts about the scanning primitives -/

lemma head_eq_of_isPrefixOf_cons {a c : Char} {p l : List Char}
    (h : (a :: p).isPrefixOf (c :: l) = true) : c = a := by
  simp only [List.isPrefixOf, Bool.and_eq_true, beq_iff_eq] at h
  exact h.1.symm

lemma tagStartAt_head {lit : List Char} {look : Char → Bool} {c : Char} {t : List Char}
    {a : Char} {lit' : List Char} (hl : lit = a :: lit')
    (h : tagStartAt lit look (c :: t) = true) : c = a := by
  subst hl
  unfold tagStartAt at h
  rw [Bool.and_eq_true] at h
  exact head_eq_of_isPrefixOf_cons h.1

lemma bareAskStartAt_head {c : Char} {t : List Char}
    (h : bareAskStartAt (c :: t) = true) : c = '<' :=
  tagStartAt_head rfl h

lemma formAskStartAt_head {c : Char} {t : List Char}
    (h : formAskStartAt (c :: t) = true) : c = '<' :=
  tagStartAt_head rfl h

lemma closeAskAt_head {c : Char} {t : List Char}
    (h : closeAskAt (c :: t) = true) : c = '<' := by
  unfold closeAskAt closeAskLit at h
  exact head_eq_of_isPrefixOf_cons h

lemma closeFormAt_head {c : Char} {t : List Char}
    (h : closeFormAt (c :: t) = true) : c = '<' := by
  unfold closeFormAt closeFormLit at h
  exact head_eq_of_isPrefixOf_cons h

lemma pred_false_of_head_ne (p : List Char → Bool)
    (hp : ∀ c t, p (c :: t) = true → c = '<') {c : Char} (t : List Char)
    (hc : c ≠ '<') : p (c :: t) = false := by
  cases h : p (c :: t) with
  | false => rfl
  | true => exact absurd (hp c t h) hc

lemma findStart_cons_false {p : List Char → Bool} {c : Char} {t : List Char}
    (h : p (c :: t) = false) :
    findStart p (c :: t) = (findStart p t).map (· + 1) := by
  simp [findStart, h]

lemma findStart_cons_true {p : List Char → Bool} {c : Char} {t : List Char}
    (h : p (c :: t) = true) : findStart p (c :: t) = some 0 := by
  simp [findStart, h]

lemma findStart_none_of_no_lt (p : List Char → Bool)
    (hp : ∀ c t, p (c :: t) = true → c = '<')
    {s : List Char} (hs : ('<' : Char) ∉ s) : findStart p s = none := by
  induction s with
  | nil => rfl
  | cons c t ih =>
    have hc : c ≠ '<' := fun e => hs (e ▸ List.mem_cons_self c t)
    rw [findStart_cons_false (pred_false_of_head_ne p hp t hc),
      ih (fun m => hs (List.mem_cons_of_mem _ m))]
    rfl

lemma findStart_append_no_lt (p : List Char → Bool)
    (hp : ∀ c t, p (c :: t) = true → c = '<')
    {pre : List Char} (s : List Char) (hpre : ('<' : Char) ∉ pre) :
    findStart p (pre ++ s) = (findStart p s).map (· + pre.length) := by
  induction pre with
  | nil =>
    cases h : findStart p s <;> simp [h]
  | cons c pre ih =>
    have hc : c ≠ '<' := fun e => hpre (e ▸ List.mem_cons_self c pre)
    rw [List.cons_append, findStart_cons_false (pred_false_of_head_ne p hp _ hc),
      ih (fun m => hpre (List.mem_cons_of_mem _ m))]
    cases findStart p s <;> simp [Nat.add_assoc]

lemma askSuffixLen_eq_zero {s : List Char} (hs : ('<' : Char) ∉ s) :
    askSuffixLen s = 0 := by
  have hall : ∀ x ∈ possibleAskHeads, ('<' : Char) ∈ x := by decide
  unfold askSuffixLen
  have hnone : possibleAskHeads.find? (fun p => p.isSuffixOf s) = none := by
    rw [List.find?_eq_none]
    intro p hp hsuf
    exact hs (((List.isSuffixOf_iff_suffix).1 hsuf).subset (hall p hp))
  rw [hnone]

/-! ### Invariants of _process_buffer and parse_interactions -/

/-- Events a _process_buffer pass may emit. -/
def isParserEv : Event → Bool
  | Event.textChunk _ => true
  | Event.interactionRequest _ _ _ _ => true
  | Event.interactionForm _ _ _ => true
  | _ => false

lemma textOpt_nil : textOpt [] = [] := rfl

lemma textOpt_of_ne {s : List Char} (h : s ≠ []) :
    textOpt s = [Event.textChunk s] := by
  simp [textOpt, h]

lemma hasInteraction_textOpt (s : List Char) :
    hasInteraction (textOpt s) = false := by
  unfold textOpt
  split <;> simp [hasInteraction, isInteractionEv]

lemma textConcat_textOpt (s : List Char) : textConcat (textOpt s) = s := by
  unfold textOpt
  split <;> simp_all [textConcat]

lemma mem_textOpt {e : Event} {s : List Char} (h : e ∈ textOpt s) :
    e = Event.textChunk s ∧ s ≠ [] := by
  unfold textOpt at h
  split at h <;> simp_all

lemma tryExtractBareAsk_spec {buf : List Char} {n : Nat} {e : Extracted}
    (h : tryExtractBareAsk buf n = some e) :
    isInteractionEv e.event = true ∧ e.rid = n := by
  simp only [tryExtractBareAsk] at h
  cases h1 : findStart bareAskStartAt buf with
  | none => simp only [h1] at h; exact absurd h (by simp)
  | some pos =>
    simp only [h1] at h
    cases h2 : findStart closeAskAt (buf.drop pos) with
    | none => simp only [h2] at h; exact absurd h (by simp)
    | some closeRel =>
      simp only [h2] at h
      cases h3 : askMatch ((buf.drop pos).take (closeRel + closeAskLit.length)) with
      | none => simp only [h3] at h; exact absurd h (by simp)
      | some x =>
        obtain ⟨ty, op, q⟩ := x
        simp only [h3] at h
        injection h with h
        subst h
        simp [isInteractionEv]

lemma tryExtractAskForm_spec {buf : List Char} {n : Nat} {e : Extracted}
    (h : tryExtractAskForm buf n = some e) :
    isInteractionEv e.event = true ∧ e.rid = n := by
  simp only [tryExtractAskForm] at h
  cases h1 : findStart formAskStartAt buf with
  | none => simp only [h1] at h; exact absurd h (by simp)
  | some pos =>
    simp only [h1] at h
    cases h2 : findStart closeFormAt (buf.drop pos) with
    | none => simp only [h2] at h; exact absurd h (by simp)
    | some closeRel =>
      simp only [h2] at h
      cases h3 : findStart gtAt (buf.drop pos) with
      | none => simp only [h3] at h; exact absurd h (by simp)
      | some openRel =>
        simp only [h3] at h
        split at h
        · exact absurd h (by simp)
        · split at h
          · exact absurd h (by simp)
          · injection h with h
            subst h
            simp [isInteractionEv]

lemma textConcat_append (a b : List Event) :
    textConcat (a ++ b) = textConcat a ++ textConcat b := by
  induction a with
  | nil => rfl
  | cons e rest ih =>
    cases e <;> simp [textConcat, ih]

lemma hasInteraction_append (a b : List Event) :
    hasInteraction (a ++ b) = (hasInteraction a || hasInteraction b) := by
  simp [hasInteraction, List.any_append]

lemma firstTagPos_nil : firstTagPos [] = none := rfl

lemma ne_nil_of_firstTagPos_some {buf : List Char} {v : Nat × Bool}
    (h : firstTagPos buf = some v) : buf ≠ [] := by
  rintro rfl
  simp [firstTagPos, findStart] at h

/-- Step shape of _process_buffer when no tag start is in the buffer. -/
lemma processBufferF_none {fuel : Nat} {buf : List Char} (n : Nat) (p : List Nat)
    (hft : firstTagPos buf = none) :
    processBufferF (fuel + 1) buf n p
      = (textOpt (buf.take (buf.length - askSuffixLen buf)),
         buf.drop (buf.length - askSuffixLen buf), n, p) := by
  simp [processBufferF, hft, textOpt]

/-- Step shape of _process_buffer when the earliest tag is still
incomplete. -/
lemma processBufferF_stuck {fuel : Nat} {buf : List Char} (n : Nat) (p : List Nat)
    {pos : Nat} {isForm : Bool}
    (hft : firstTagPos buf = some (pos, isForm))
    (hex : (if isForm then tryExtractAskForm buf n else tryExtractBareAsk buf n) = none) :
    processBufferF (fuel + 1) buf n p
      = (textOpt (buf.take pos), buf.drop pos, n, p) := by
  have hbuf : buf ≠ [] := ne_nil_of_firstTagPos_some hft
  simp only [processBufferF, hft, hex, textOpt]
  by_cases hp : pos = 0
  · simp [hp]
  · have : buf.take pos ≠ [] := by
      rw [Ne, List.take_eq_nil_iff]
      exact fun h => h.elim hp hbuf
    simp [hp, this]

/-- Step shape of _process_buffer when a complete tag is extracted. -/
lemma processBufferF_extract {fuel : Nat} {buf : List Char} (n : Nat) (p : List Nat)
    {pos : Nat} {isForm : Bool} {e : Extracted}
    (hft : firstTagPos buf = some (pos, isForm))
    (hex : (if isForm then tryExtractAskForm buf n else tryExtractBareAsk buf n) = some e) :
    processBufferF (fuel + 1) buf n p
      = (textOpt e.before ++ e.event :: (processBufferF fuel e.after (n + 1) (p ++ [e.rid])).1,
         (processBufferF fuel e.after (n + 1) (p ++ [e.rid])).2) := by
  simp [processBufferF, hft, hex, textOpt]

lemma mem_textOpt_text {t s : List Char} (h : Event.textChunk t ∈ textOpt s) :
    t ≠ [] := by
  obtain ⟨he, hs⟩ := mem_textOpt h
  injection he with he
  rw [he]
  exact hs

/-- The core invariant of one _process_buffer pass: pending grows by exactly
the ids of the emitted interaction events, every emitted TextChunk is
non-empty, every output is a parser event, and when nothing was extracted the
flushed text plus the remaining buffer reassemble the input buffer. -/
lemma processBufferF_inv (fuel : Nat) :
    ∀ buf n p,
      ∃ δ,
        (processBufferF fuel buf n p).2.2.2 = p ++ δ ∧
        (hasInteraction (processBufferF fuel buf n p).1 = true ↔ δ ≠ []) ∧
        (∀ t, Event.textChunk t ∈ (processBufferF fuel buf n p).1 → t ≠ []) ∧
        (∀ e ∈ (processBufferF fuel buf n p).1, isParserEv e = true) ∧
        (δ = [] →
          textConcat (processBufferF fuel buf n p).1 ++
            (processBufferF fuel buf n p).2.1 = buf) := by
  induction fuel with
  | zero =>
    intro buf n p
    exact ⟨[], by simp [processBufferF, hasInteraction, textConcat]⟩
  | succ fuel ih =>
    intro buf n p
    cases hft : firstTagPos buf with
    | none =>
      refine ⟨[], ?_, ?_, ?_, ?_, ?_⟩ <;>
        rw [processBufferF_none n p hft]
      · simp
      · simp [hasInteraction_textOpt]
      · intro t ht
        exact mem_textOpt_text ht
      · intro e he
        rw [(mem_textOpt he).1]
        rfl
      · intro _
        rw [textConcat_textOpt]
        exact List.take_append_drop _ buf
    | some pk =>
      obtain ⟨pos, isForm⟩ := pk
      cases hex : (if isForm then tryExtractAskForm buf n else tryExtractBareAsk buf n) with
      | none =>
        refine ⟨[], ?_, ?_, ?_, ?_, ?_⟩ <;>
          rw [processBufferF_stuck n p hft hex]
        · simp
        · simp [hasInteraction_textOpt]
        · intro t ht
          exact mem_textOpt_text ht
        · intro e he
          rw [(mem_textOpt he).1]
          rfl
        · intro _
          rw [textConcat_textOpt]
          exact List.take_append_drop _ buf
      | some e =>
        have hspec : isInteractionEv e.event = true ∧ e.rid = n := by
          by_cases hf : isForm
          · simp only [hf, if_true] at hex
            exact tryExtractAskForm_spec hex
          · simp only [hf, if_false] at hex
            exact tryExtractBareAsk_spec hex
        obtain ⟨δ', h1, h2, h3, h4, _⟩ := ih e.after (n + 1) (p ++ [e.rid])
        refine ⟨e.rid :: δ', ?_, ?_, ?_, ?_, ?_⟩ <;>
          rw [processBufferF_extract n p hft hex]
        · simpa using h1
        · constructor
          · intro _
            simp
          · intro _
            simp [hasInteraction, hspec.1]
        · intro t ht
          simp only [List.mem_append, List.mem_cons] at ht
          rcases ht with ht | ht | ht
          · exact mem_textOpt_text ht
          · rw [← ht] at hspec
            simp [isInteractionEv] at hspec
          · exact h3 t ht
        · intro ev he
          simp only [List.mem_append, List.mem_cons] at he
          rcases he with he | he | he
          · rw [(mem_textOpt he).1]
            rfl
          · subst he
            cases hev : e.event <;> simp_all [isInteractionEv, isParserEv]
          · exact h4 ev he
        · intro hcon
          exact absurd hcon (by simp)

/-- Everything _process_buffer yields at its natural fuel. -/
lemma processBuf_inv (buf : List Char) (n : Nat) (p : List Nat) :
    ∃ δ,
      (processBuf buf n p).2.2.2 = p ++ δ ∧
      (hasInteraction (processBuf buf n p).1 = true ↔ δ ≠ []) ∧
      (∀ t, Event.textChunk t ∈ (processBuf buf n p).1 → t ≠ []) ∧
      (∀ e ∈ (processBuf buf n p).1, isParserEv e = true) ∧
      (δ = [] → textConcat (processBuf buf n p).1 ++ (processBuf buf n p).2.1 = buf) := by
  unfold processBuf
  exact processBufferF_inv _ buf n p

/-- The non-text flush emits a single optional TextChunk whose content is an
initial segment of the buffer; the rest stays buffered. -/
lemma flushForNonText_spec (buf : List Char) :
    ∃ s1, (flushForNonText buf).1 = textOpt s1 ∧ s1 ++ (flushForNonText buf).2 = buf := by
  unfold flushForNonText
  cases hft : firstTagPos buf with
  | none =>
    exact ⟨buf.take (buf.length - askSuffixLen buf), by simp [textOpt],
      List.take_append_drop _ buf⟩
  | some pk =>
    obtain ⟨pos, isForm⟩ := pk
    have hbuf : buf ≠ [] := ne_nil_of_firstTagPos_some hft
    refine ⟨buf.take pos, ?_, List.take_append_drop _ buf⟩
    by_cases hp : pos = 0
    · simp [hp, textOpt]
    · have : buf.take pos ≠ [] := by
        rw [Ne, List.take_eq_nil_iff]
        exact fun h => h.elim hp hbuf
      simp [hp, this, textOpt]

lemma done_not_mem_of_parserEv {l : List Event}
    (h : ∀ e ∈ l, isParserEv e = true) : Event.done ∉ l := by
  intro hm
  have := h _ hm
  simp [isParserEv] at this

lemma done_not_mem_textOpt (s : List Char) : Event.done ∉ textOpt s := by
  intro hm
  obtain ⟨he, _⟩ := mem_textOpt hm
  cases he

/-- Every TextChunk the Tag Parser ever emits is non-empty, whatever the
input events are. -/
lemma parseInteractions_texts (ins : List Event) :
    ∀ s t, Event.textChunk t ∈ (parseInteractions s ins).1 → t ≠ [] := by
  induction ins with
  | nil =>
    intro s t ht
    simp [parseInteractions] at ht
  | cons e rest ih =>
    intro s t ht
    cases e
    case textChunk c =>
      simp only [parseInteractions] at ht
      obtain ⟨_, _, _, h3, _, _⟩ := processBuf_inv (s.buf ++ c) s.nextId s.pending
      rcases List.mem_append.1 ht with hm | hm
      · exact h3 t hm
      · exact ih _ t hm
    case done =>
      simp only [parseInteractions] at ht
      obtain ⟨s1, hf1, _⟩ := flushForNonText_spec s.buf
      obtain ⟨_, _, _, h3, _, _⟩ :=
        processBuf_inv (flushForNonText s.buf).2 s.nextId s.pending
      rw [hf1] at ht
      simp only [List.append_assoc, List.mem_append] at ht
      rcases ht with hm | hm | hm | hm
      · exact mem_textOpt_text hm
      · exact h3 t hm
      · split at hm <;> simp_all
      · split at hm <;> simp_all
    all_goals
      simp only [parseInteractions] at ht
      obtain ⟨s1, hf1, _⟩ := flushForNonText_spec s.buf
      rw [hf1] at ht
      rcases List.mem_append.1 ht with hm | hm
      · exact mem_textOpt_text hm
      · rcases List.mem_cons.1 hm with hm | hm
        · cases hm
        · exact ih _ t hm

/-- Appending input events composes, as long as the first part contains no
terminal Done (after a Done the generator has returned). -/
lemma parseInteractions_append (a b : List Event) :
    ∀ s, Event.done ∉ a →
    parseInteractions s (a ++ b)
      = ((parseInteractions s a).1 ++ (parseInteractions (parseInteractions s a).2 b).1,
         (parseInteractions (parseInteractions s a).2 b).2) := by
  induction a with
  | nil =>
    intro s _
    simp [parseInteractions]
  | cons e rest ih =>
    intro s hd
    have hd' : Event.done ∉ rest := fun m => hd (List.mem_cons_of_mem _ m)
    cases e
    case done => simp at hd
    case textChunk c =>
      simp only [List.cons_append, parseInteractions, List.append_eq]
      rw [ih _ hd']
      simp [List.append_assoc]
    all_goals
      simp only [List.cons_append, parseInteractions, List.append_eq]
      rw [ih _ hd']
      simp [List.append_assoc]

/-- Invariant of a Done-free, interaction-free input prefix: pending grows by
exactly the ids of the emitted interactions, no Done is emitted, and when no
interaction was extracted the emitted text plus the final buffer equal the
initial buffer plus the input text. -/
lemma parseInteractions_inv (ins : List Event) :
    ∀ s, Event.done ∉ ins → (∀ e ∈ ins, isInteractionEv e = false) →
      ∃ δ,
        (parseInteractions s ins).2.pending = s.pending ++ δ ∧
        (hasInteraction (parseInteractions s ins).1 = true ↔ δ ≠ []) ∧
        Event.done ∉ (parseInteractions s ins).1 ∧
        (δ = [] →
          textConcat (parseInteractions s ins).1 ++ (parseInteractions s ins).2.buf
            = s.buf ++ textConcat ins) := by
  induction ins with
  | nil =>
    intro s _ _
    exact ⟨[], by simp [parseInteractions, hasInteraction, textConcat]⟩
  | cons e rest ih =>
    intro s hd hni
    have hd' : Event.done ∉ rest := fun m => hd (List.mem_cons_of_mem _ m)
    have hni' : ∀ x ∈ rest, isInteractionEv x = false :=
      fun x m => hni x (List.mem_cons_of_mem _ m)
    have hni0 : isInteractionEv e = false := hni e (List.mem_cons_self _ _)
    cases e
    case done => simp at hd
    case textChunk c =>
      obtain ⟨d1, hp1, hi1, _, hpe1, hc1⟩ := processBuf_inv (s.buf ++ c) s.nextId s.pending
      obtain ⟨d2, hp2, hi2, hdn2, hc2⟩ :=
        ih (PS.mk (processBuf (s.buf ++ c) s.nextId s.pending).2.1
          (processBuf (s.buf ++ c) s.nextId s.pending).2.2.1
          (processBuf (s.buf ++ c) s.nextId s.pending).2.2.2)
          hd' hni'
      refine ⟨d1 ++ d2, ?_, ?_, ?_, ?_⟩ <;>
        simp only [parseInteractions]
      · simp only [hp2]
        simp [hp1, List.append_assoc]
      · rw [hasInteraction_append, Bool.or_eq_true, hi1, hi2]
        constructor
        · rintro (h | h) hq
          · exact h (List.append_eq_nil.1 hq).1
          · exact h (List.append_eq_nil.1 hq).2
        · intro h
          by_cases h1 : d1 = []
          · right
            intro h2
            exact h (by rw [h1, h2]; rfl)
          · left
            exact h1
      · intro hm
        rcases List.mem_append.1 hm with hm | hm
        · exact done_not_mem_of_parserEv hpe1 hm
        · exact hdn2 hm
      · intro hz
        obtain ⟨hz1, hz2⟩ := List.append_eq_nil.1 hz
        rw [textConcat_append, List.append_assoc, hc2 hz2]
        show textConcat (processBuf (s.buf ++ c) s.nextId s.pending).1 ++
          ((processBuf (s.buf ++ c) s.nextId s.pending).2.1 ++ textConcat rest) = _
        rw [← List.append_assoc, hc1 hz1]
        simp [textConcat, List.append_assoc]
    all_goals
      obtain ⟨s1, hf1, hf2⟩ := flushForNonText_spec s.buf
      obtain ⟨d2, hp2, hi2, hdn2, hc2⟩ :=
        ih (PS.mk (flushForNonText s.buf).2 s.nextId s.pending) hd' hni'
      refine ⟨d2, ?_, ?_, ?_, ?_⟩ <;>
        simp only [parseInteractions]
      · exact hp2
      · rw [hf1, hasInteraction_append, hasInteraction_textOpt]
        simp only [Bool.false_or, hasInteraction, List.any_cons, hni0, Bool.or_eq_true] at hi2 ⊢
        simpa using hi2
      · intro hm
        rcases List.mem_append.1 hm with hm | hm
        · rw [hf1] at hm
          exact done_not_mem_textOpt _ hm
        · rcases List.mem_cons.1 hm with hm | hm
          · cases hm
          · exact hdn2 hm
      · intro hz
        rw [textConcat_append, hf1, textConcat_textOpt]
        simp only [textConcat]
        rw [List.append_assoc, hc2 hz]
        show s1 ++ ((flushForNonText s.buf).2 ++ textConcat rest) = _
        rw [← List.append_assoc, hf2]

/-- Shape of the terminal Done step: one more extraction pass, the raw
leftover buffer as text, and Done itself exactly when nothing is pending. -/
lemma parseInteractions_done_step (s : PS) :
    ∃ δ,
      (parseInteractions s [Event.done]).2.pending = s.pending ++ δ ∧
      (hasInteraction (parseInteractions s [Event.done]).1 = true ↔ δ ≠ []) ∧
      (s.pending ++ δ ≠ [] → Event.done ∉ (parseInteractions s [Event.done]).1) ∧
      (s.pending ++ δ = [] →
        (parseInteractions s [Event.done]).1.getLast? = some Event.done) ∧
      (δ = [] → textConcat (parseInteractions s [Event.done]).1 = s.buf) := by
  obtain ⟨s1, hf1, hf2⟩ := flushForNonText_spec s.buf
  obtain ⟨δ, hp, hi, _, hpe, hc⟩ :=
    processBuf_inv (flushForNonText s.buf).2 s.nextId s.pending
  refine ⟨δ, ?_, ?_, ?_, ?_, ?_⟩ <;>
    simp only [parseInteractions]
  · exact hp
  · rw [hf1]
    rw [hasInteraction_append, hasInteraction_append, hasInteraction_append,
      hasInteraction_textOpt]
    have hleft : hasInteraction
        (if (processBuf (flushForNonText s.buf).2 s.nextId s.pending).2.1 = []
         then [] else [Event.textChunk
           (processBuf (flushForNonText s.buf).2 s.nextId s.pending).2.1]) = false := by
      split <;> simp [hasInteraction, isInteractionEv]
    have hdop : hasInteraction
        (if (processBuf (flushForNonText s.buf).2 s.nextId s.pending).2.2.2 = []
         then [Event.done] else []) = false := by
      split <;> simp [hasInteraction, isInteractionEv]
    rw [hleft, hdop]
    simp only [Bool.or_false, Bool.false_or]
    exact hi
  · intro hne hm
    rw [hf1] at hm
    simp only [List.append_assoc, List.mem_append] at hm
    rcases hm with hm | hm | hm | hm
    · exact done_not_mem_textOpt _ hm
    · exact done_not_mem_of_parserEv hpe hm
    · split at hm <;> simp_all
    · have hcond : (processBuf (flushForNonText s.buf).2 s.nextId s.pending).2.2.2 ≠ [] := by
        rw [hp]
        exact hne
      rw [if_neg hcond] at hm
      simp at hm
  · intro hz
    have hcond : (processBuf (flushForNonText s.buf).2 s.nextId s.pending).2.2.2 = [] := by
      rw [hp]
      exact hz
    rw [if_pos hcond]
    exact List.getLast?_concat _
  · intro hz
    rw [hf1, textConcat_append, textConcat_append, textConcat_append,
      textConcat_textOpt]
    have hdop : textConcat
        (if (processBuf (flushForNonText s.buf).2 s.nextId s.pending).2.2.2 = []
         then [Event.done] else []) = [] := by
      split <;> simp [textConcat]
    have hleft : textConcat
        (if (processBuf (flushForNonText s.buf).2 s.nextId s.pending).2.1 = []
         then [] else [Event.textChunk
           (processBuf (flushForNonText s.buf).2 s.nextId s.pending).2.1])
        = (processBuf (flushForNonText s.buf).2 s.nextId s.pending).2.1 := by
      split <;> simp_all [textConcat]
    rw [hdop, hleft]
    simp only [List.append_nil]
    rw [List.append_assoc, hc hz, hf2]

/-- C4: For every event stream whose terminal Done arrives while at least one
interaction (InteractionRequest or InteractionForm) emitted in that stream is
still pending, the Tag Parser output contains no Done event (Done is
suppressed); if no interaction is pending at that point, Done is forwarded
(as the last event) after one final aggressive flush that also emits any
held-back suffix, so the full input text is emitted. -/
theorem C4_done_suppression (evs : List Event)
    (hd : Event.done ∉ evs)
    (hni : ∀ e ∈ evs, isInteractionEv e = false) :
    (hasInteraction (parseInteractions (PS.mk [] 0 []) (evs ++ [Event.done])).1 = true →
        Event.done ∉ (parseInteractions (PS.mk [] 0 []) (evs ++ [Event.done])).1) ∧
    (hasInteraction (parseInteractions (PS.mk [] 0 []) (evs ++ [Event.done])).1 = false →
        (parseInteractions (PS.mk [] 0 []) (evs ++ [Event.done])).1.getLast?
            = some Event.done ∧
        textConcat (parseInteractions (PS.mk [] 0 []) (evs ++ [Event.done])).1
            = textConcat evs) := by
  obtain ⟨d1, hp1, hi1, hdn1, hc1⟩ := parseInteractions_inv evs (PS.mk [] 0 []) hd hni
  obtain ⟨d2, hp2, hi2, hsup, hlast, htext⟩ :=
    parseInteractions_done_step (parseInteractions (PS.mk [] 0 []) evs).2
  have hpend : (parseInteractions (PS.mk [] 0 []) evs).2.pending = d1 := by
    simpa using hp1
  have hout : (parseInteractions (PS.mk [] 0 []) (evs ++ [Event.done])).1
      = (parseInteractions (PS.mk [] 0 []) evs).1
        ++ (parseInteractions (parseInteractions (PS.mk [] 0 []) evs).2 [Event.done]).1 := by
    rw [parseInteractions_append evs [Event.done] (PS.mk [] 0 []) hd]
  rw [hpend] at hsup hlast
  constructor
  · intro h hm
    rw [hout] at h hm
    rw [hasInteraction_append, Bool.or_eq_true, hi1, hi2] at h
    have hne : d1 ++ d2 ≠ [] := by
      intro hq
      obtain ⟨hq1, hq2⟩ := List.append_eq_nil.1 hq
      rcases h with h | h
      · exact h hq1
      · exact h hq2
    rcases List.mem_append.1 hm with hm | hm
    · exact hdn1 hm
    · exact hsup hne hm
  · intro h
    rw [hout] at h ⊢
    rw [hasInteraction_append, Bool.or_eq_false_iff] at h
    have hz1 : d1 = [] := by
      by_contra hq
      exact absurd (hi1.2 hq) (by simp [h.1])
    have hz2 : d2 = [] := by
      by_contra hq
      exact absurd (hi2.2 hq) (by simp [h.2])
    have hzz : d1 ++ d2 = [] := by rw [hz1, hz2]; rfl
    have hlast2 := hlast hzz
    constructor
    · have hne2 : (parseInteractions (parseInteractions (PS.mk [] 0 []) evs).2
          [Event.done]).1 ≠ [] := by
        intro hq
        rw [hq] at hlast2
        simp at hlast2
      rw [List.getLast?_append_of_ne_nil _ hne2]
      exact hlast2
    · rw [textConcat_append, htext hz2]
      have := hc1 hz1
      simpa using this

/-- Witness for C4: on a concrete stream holding one complete ask tag, the
suppression branch fires and no Done is forwarded. -/
theorem C4_done_suppression_witness :
    Event.done ∉ (parseInteractions (PS.mk [] 0 [])
      ([Event.textChunk ("Pick: <ask>Which?</ask>".data)] ++ [Event.done])).1 :=
  (C4_done_suppression [Event.textChunk ("Pick: <ask>Which?</ask>".data)]
    (by decide) (by decide)).1 (by decide)

/-- C9: every TextChunk event emitted by the Tag Parser carries non-empty
content, for every input event sequence and every parser state — including
the flushes before non-text events, before extracted tags, and the final
Done flush. -/
theorem C9_no_empty_text_chunks (ins : List Event) (s : PS) (t : List Char)
    (hm : Event.textChunk t ∈ (parseInteractions s ins).1) : t ≠ [] :=
  parseInteractions_texts ins s t hm

/-- Witness for C9 at a concrete input. -/
theorem C9_no_empty_text_chunks_witness :
    Event.textChunk ("ab".data)
        ∈ (parseInteractions (PS.mk [] 0 []) [Event.textChunk ("ab".data)]).1 ∧
    ("ab".data : List Char) ≠ [] :=
  ⟨by decide, C9_no_empty_text_chunks [Event.textChunk ("ab".data)]
    (PS.mk [] 0 []) ("ab".data) (by decide)⟩

/-- C8: feeding the single TextChunk "hello <ask-f" to a fresh Tag Parser
(with no further input) yields exactly one event, TextChunk "hello "; the
trailing partial tag head "<ask-f" is held back in the buffer and is not
emitted as text. -/
theorem C8_partial_tag_held_back :
    parseInteractions (PS.mk [] 0 []) [Event.textChunk ("hello <ask-f".data)]
      = ([Event.textChunk ("hello ".data)], PS.mk ("<ask-f".data) 0 []) := by
  decide

/-! ### The interaction registry (C5) -/

lemma find?_append_of_none {α : Type} (l1 l2 : List α) (p : α → Bool)
    (h : l1.find? p = none) : (l1 ++ l2).find? p = l2.find? p := by
  induction l1 with
  | nil => rfl
  | cons e rest ih =>
    rw [List.cons_append]
    cases hp : p e with
    | true => simp [List.find?, hp] at h
    | false =>
      simp only [List.find?, hp] at h ⊢
      exact ih h

/-- A regSet deposit is visible to the next lookup of the same id. -/
lemma regFind_regSet (r : Registry) (k : List Char) (v : Option (List Char)) :
    regFind (regSet r k v) k = some v := by
  unfold regFind regSet
  by_cases h : (r.find? (fun e => e.1 == k)).isSome
  · rw [if_pos h]
    induction r with
    | nil => simp at h
    | cons e rest ih =>
      cases he : (e.1 == k) with
      | true => simp [List.find?, List.map_cons, he]
      | false =>
        simp only [List.find?, he] at h
        simp only [List.map_cons, he, Bool.false_eq_true, if_false, List.find?]
        exact ih h
  · rw [if_neg h]
    rw [find?_append_of_none _ _ _ (Option.not_isSome_iff_eq_none.1 h)]
    simp [List.find?]

/-- C5 (amended): resolve_interaction is a silent no-op when the id is
unknown and a non-blocking deposit when the registered single-slot channel is
empty — in both cases no error reaches the caller — but a second resolve for
an id whose slot still holds an undelivered value raises QueueFull to the
caller instead of being swallowed. -/
theorem C5_resolve_semantics (r : Registry) (k v : List Char) :
    (regFind r k = none → resolve_interaction r k v = ResolveOutcome.ok r) ∧
    (regFind r k = some none →
      ∃ r2, resolve_interaction r k v = ResolveOutcome.ok r2 ∧
        regFind r2 k = some (some v)) ∧
    (∀ w, regFind r k = some (some w) →
      resolve_interaction r k v = ResolveOutcome.queueFull) := by
  refine ⟨?_, ?_, ?_⟩
  · intro h
    unfold resolve_interaction
    rw [h]
  · intro h
    refine ⟨regSet r k (some v), ?_, regFind_regSet r k (some v)⟩
    unfold resolve_interaction
    rw [h]
  · intro w h
    unfold resolve_interaction
    rw [h]

/-- Witness for C5 (amended) at concrete inputs: an unknown id is a no-op. -/
theorem C5_resolve_semantics_witness :
    resolve_interaction [] ("x".data) ("v".data) = ResolveOutcome.ok [] :=
  (C5_resolve_semantics [] ("x".data) ("v".data)).1 (by decide)

/-- Counterexample for C5 as stated: after register and one resolve, the
slot holds a value, and a second resolve raises QueueFull to the caller
rather than being error-free. -/
theorem C5_second_resolve_raises :
    resolve_interaction (register_interaction [] ("r1".data)) ("r1".data) ("a".data)
        = ResolveOutcome.ok [(("r1".data), some ("a".data))] ∧
    resolve_interaction [(("r1".data), some ("a".data))] ("r1".data) ("b".data)
        = ResolveOutcome.queueFull := by
  decide

/-- C10: a user_message whose content strips to the empty string is ignored
entirely by the transport loop — no task is cancelled, no task is started,
and the connection state is unchanged — while a non-empty user_message with
an unfinished in-flight task cancels it and starts a fresh task carrying the
stripped content. -/
theorem C10_empty_user_message_ignored (st : ConnSt) (n : Nat) (content : List Char)
    (h : pyStrip content = []) :
    handleClientMsg st n (ClientMsg.userMessage content) = (st, []) ∧
    (∀ c2 t, pyStrip c2 ≠ [] → st.currentTask = some t → t.finished = false →
      handleClientMsg st n (ClientMsg.userMessage c2)
        = (ConnSt.mk false (some (TaskRef.mk n false)),
           [WsEffect.cancelTask t.id, WsEffect.startTask (pyStrip c2) n])) := by
  constructor
  · simp [handleClientMsg, h]
  · intro c2 t h2 h3 h4
    simp [handleClientMsg, h2, h3, h4]

/-- Witness for C10: a whitespace-only message leaves a connection with an
in-flight task untouched. -/
theorem C10_empty_user_message_ignored_witness :
    handleClientMsg (ConnSt.mk false (some (TaskRef.mk 0 false))) 1
      (ClientMsg.userMessage ("  ".data))
      = ((ConnSt.mk false (some (TaskRef.mk 0 false))), []) :=
  (C10_empty_user_message_ignored (ConnSt.mk false (some (TaskRef.mk 0 false))) 1
    ("  ".data) (by decide)).1

/-! ### Session.send persistence (C1, C6) -/

/-- Number of assistant messages. -/
def assistantCount (l : List Msg) : Nat :=
  l.countP (fun m => m.role == Role.assistant)

/-- Number of Done events. -/
def doneCount (l : List Event) : Nat :=
  l.countP (fun e => e == Event.done)

/-- Each provider Done event appends one assistant message and one save;
nothing else does. -/
lemma sendGo_counts (evs : List Event) : ∀ st a,
    assistantCount ((sendGo st a evs).1.messages)
      = assistantCount st.messages + doneCount evs ∧
    (sendGo st a evs).1.saves = st.saves + doneCount evs := by
  induction evs with
  | nil =>
    intro st a
    simp [sendGo, doneCount]
  | cons e rest ih =>
    intro st a
    cases e
    case done =>
      simp only [sendGo, sendStep]
      refine ⟨?_, ?_⟩
      · rw [(ih _ _).1]
        simp [assistantCount, doneCount, List.countP_cons, List.countP_append]
        omega
      · rw [(ih _ _).2]
        simp [doneCount, List.countP_cons]
        omega
    all_goals
      simp only [sendGo, sendStep]
      refine ⟨?_, ?_⟩
      · rw [(ih _ _).1]
        simp [doneCount, List.countP_cons]
      · rw [(ih _ _).2]
        simp [doneCount, List.countP_cons]

/-- With no Done among the provider events, the fold touches neither the
message list nor the save counter. -/
lemma sendGo_state_no_done (evs : List Event) (hd : Event.done ∉ evs) : ∀ st a,
    (sendGo st a evs).1.messages = st.messages ∧
    (sendGo st a evs).1.saves = st.saves := by
  induction evs with
  | nil =>
    intro st a
    simp [sendGo]
  | cons e rest ih =>
    intro st a
    have hd' : Event.done ∉ rest := fun m => hd (List.mem_cons_of_mem _ m)
    cases e
    case done => simp at hd
    all_goals
      simp only [sendGo, sendStep]
      exact ih hd' _ _

/-- The accumulated assistant content is empty exactly when it started empty
and every text chunk seen was empty. -/
lemma sendGo_content_empty (evs : List Event) : ∀ st a,
    ((sendGo st a evs).2.1.content = []
      ↔ (a.content = [] ∧ ∀ t, Event.textChunk t ∈ evs → t = [])) := by
  induction evs with
  | nil =>
    intro st a
    simp [sendGo]
  | cons e rest ih =>
    intro st a
    cases e
    case textChunk c =>
      simp only [sendGo, sendStep]
      rw [ih]
      constructor
      · rintro ⟨h1, h2⟩
        dsimp only at h1
        by_cases hb : (a.hadTool && !a.content.isEmpty) = true
        · rw [if_pos hb] at h1
          obtain ⟨ha, hc⟩ := List.append_eq_nil.1 h1
          obtain ⟨ha1, hsep⟩ := List.append_eq_nil.1 ha
          simp [paraSep] at hsep
        · rw [if_neg hb] at h1
          obtain ⟨ha, hc⟩ := List.append_eq_nil.1 h1
          refine ⟨ha, ?_⟩
          intro t ht
          rcases List.mem_cons.1 ht with ht | ht
          · injection ht with ht
            rw [ht]
            exact hc
          · exact h2 t ht
      · rintro ⟨h1, h2⟩
        have hc : c = [] := h2 c (List.mem_cons_self _ _)
        have hb : (a.hadTool && !a.content.isEmpty) = false := by
          rw [h1]
          simp
        refine ⟨?_, fun t ht => h2 t (List.mem_cons_of_mem _ ht)⟩
        dsimp only
        rw [hb]
        simp [h1, hc]
    all_goals
      simp only [sendGo, sendStep]
      rw [ih]
      constructor
      · rintro ⟨h1, h2⟩
        have h1b : a.content = [] := by
          revert h1
          first
          | exact id
          | (intro h1; split at h1 <;> exact h1)
        exact ⟨h1b, fun t ht => by
          rcases List.mem_cons.1 ht with ht | ht
          · cases ht
          · exact h2 t ht⟩
      · rintro ⟨h1, h2⟩
        refine ⟨?_, fun t ht => h2 t (List.mem_cons_of_mem _ ht)⟩
        first
        | exact h1
        | (split <;> exact h1)

lemma assistantCount_append_user (l : List Msg) (m : List Char) :
    assistantCount (l ++ [Msg.mk Role.user m []]) = assistantCount l := by
  simp [assistantCount, List.countP_append, List.countP_cons]

/-- C1 (amended): Session.send persists one assistant message per provider
Done event — each underlying invocation that ends with Done appends and saves
its own assistant message, rather than only one final message per logical
turn. -/
theorem C1_per_done_persistence (st : SessState) (m : List Char) (evs : List Event) :
    assistantCount ((sendFold st m evs none).1.messages)
        = assistantCount st.messages + doneCount evs ∧
    (sendFold st m evs none).1.saves = st.saves + doneCount evs := by
  unfold sendFold
  by_cases hcond : (st.messages.isEmpty && st.title == newConversation) = true
  · rw [if_pos hcond]
    obtain ⟨h1, h2⟩ := sendGo_counts evs
      (SessState.mk (autoTitle m)
        (st.messages ++ [Msg.mk Role.user m []]) st.cli_session_id st.saves)
      (SendAcc.mk [] [] [] false)
    exact ⟨by simpa [assistantCount_append_user] using h1, by simpa using h2⟩
  · rw [if_neg hcond]
    obtain ⟨h1, h2⟩ := sendGo_counts evs
      (SessState.mk st.title
        (st.messages ++ [Msg.mk Role.user m []]) st.cli_session_id st.saves)
      (SendAcc.mk [] [] [] false)
    exact ⟨by simpa [assistantCount_append_user] using h1, by simpa using h2⟩

/-- Counterexample for C1 as stated: a logical turn with one interaction
pause (two underlying invocations joined by the interaction loop) appends and
persists two assistant messages — one per invocation, each with only that
invocation content — not a single final message. -/
theorem C1_two_assistant_messages :
    streamLoop (SessState.mk ("New conversation".data) [] none 0) 0 ("hi".data)
      [[Event.textChunk ("a<ask>q</ask>".data), Event.done],
       [Event.textChunk ("b".data), Event.done]]
      [("yes".data)]
    = SessState.mk ("hi".data)
        [Msg.mk Role.user ("hi".data) [],
         Msg.mk Role.assistant ("a<ask>q</ask>".data) [],
         Msg.mk Role.user ("yes".data) [],
         Msg.mk Role.assistant ("b".data) []] none 2 ∧
    assistantCount (streamLoop (SessState.mk ("New conversation".data) [] none 0) 0
      ("hi".data)
      [[Event.textChunk ("a<ask>q</ask>".data), Event.done],
       [Event.textChunk ("b".data), Event.done]]
      [("yes".data)]).messages = 2 := by
  constructor
  · decide
  · decide

/-- C6 (amended): on a provider exception mid-stream, Session.send emits a
final Error event and ends the turn, but the accumulated partial work is
persisted as a best-effort assistant message only when the accumulated text
content is non-empty — accumulated tool calls with empty text content are
silently discarded. -/
theorem C6_partial_persistence (st : SessState) (m : List Char) (evs : List Event)
    (err : List Char) (hd : Event.done ∉ evs) :
    ((sendFold st m evs (some err)).2).getLast? = some (Event.error err) ∧
    ((∀ t, Event.textChunk t ∈ evs → t = []) →
      (sendFold st m evs (some err)).1.messages = st.messages ++ [Msg.mk Role.user m []] ∧
      (sendFold st m evs (some err)).1.saves = st.saves) ∧
    ((∃ t, Event.textChunk t ∈ evs ∧ t ≠ []) →
      (sendFold st m evs (some err)).1.messages.length = st.messages.length + 2 ∧
      (sendFold st m evs (some err)).1.saves = st.saves + 1 ∧
      ((sendFold st m evs (some err)).1.messages.getLast?).map Msg.role
        = some Role.assistant) := by
  have hio := sendGo_content_empty evs
  have hst := sendGo_state_no_done evs hd
  unfold sendFold
  dsimp only
  by_cases hcond : (st.messages.isEmpty && st.title == newConversation) = true
  case pos =>
    rw [if_pos hcond]
    refine ⟨?_, ?_, ?_⟩
    · split
      · exact List.getLast?_concat _
      · exact List.getLast?_concat _
    · intro hall
      have hce : (sendGo
          (SessState.mk (autoTitle m) (st.messages ++ [Msg.mk Role.user m []])
            st.cli_session_id st.saves)
          (SendAcc.mk [] [] [] false) evs).2.1.content = [] :=
        (hio _ _).2 ⟨rfl, hall⟩
      rw [if_pos (by simp [hce])]
      obtain ⟨hm, hs⟩ := hst
        (SessState.mk (autoTitle m) (st.messages ++ [Msg.mk Role.user m []])
          st.cli_session_id st.saves)
        (SendAcc.mk [] [] [] false)
      exact ⟨by simpa using hm, by simpa using hs⟩
    · rintro ⟨t, htm, htne⟩
      have hce : ¬ (sendGo
          (SessState.mk (autoTitle m) (st.messages ++ [Msg.mk Role.user m []])
            st.cli_session_id st.saves)
          (SendAcc.mk [] [] [] false) evs).2.1.content = [] := by
        rw [hio _ _]
        rintro ⟨_, hall⟩
        exact htne (hall t htm)
      rw [if_neg (by simpa using hce)]
      obtain ⟨hm, hs⟩ := hst
        (SessState.mk (autoTitle m) (st.messages ++ [Msg.mk Role.user m []])
          st.cli_session_id st.saves)
        (SendAcc.mk [] [] [] false)
      refine ⟨?_, ?_, ?_⟩
      · simp [hm]
      · simp [hs]
      · simp [List.getLast?_concat]
  case neg =>
    rw [if_neg hcond]
    refine ⟨?_, ?_, ?_⟩
    · split
      · exact List.getLast?_concat _
      · exact List.getLast?_concat _
    · intro hall
      have hce : (sendGo
          (SessState.mk st.title (st.messages ++ [Msg.mk Role.user m []])
            st.cli_session_id st.saves)
          (SendAcc.mk [] [] [] false) evs).2.1.content = [] :=
        (hio _ _).2 ⟨rfl, hall⟩
      rw [if_pos (by simp [hce])]
      obtain ⟨hm, hs⟩ := hst
        (SessState.mk st.title (st.messages ++ [Msg.mk Role.user m []])
          st.cli_session_id st.saves)
        (SendAcc.mk [] [] [] false)
      exact ⟨by simpa using hm, by simpa using hs⟩
    · rintro ⟨t, htm, htne⟩
      have hce : ¬ (sendGo
          (SessState.mk st.title (st.messages ++ [Msg.mk Role.user m []])
            st.cli_session_id st.saves)
          (SendAcc.mk [] [] [] false) evs).2.1.content = [] := by
        rw [hio _ _]
        rintro ⟨_, hall⟩
        exact htne (hall t htm)
      rw [if_neg (by simpa using hce)]
      obtain ⟨hm, hs⟩ := hst
        (SessState.mk st.title (st.messages ++ [Msg.mk Role.user m []])
          st.cli_session_id st.saves)
        (SendAcc.mk [] [] [] false)
      refine ⟨?_, ?_, ?_⟩
      · simp [hm]
      · simp [hs]
      · simp [List.getLast?_concat]

/-- Witness for C6 (amended) at a concrete crashing stream with tool calls
and no text. -/
theorem C6_partial_persistence_witness :
    (sendFold (SessState.mk ("t".data) [] none 0) ("hi".data)
      [Event.toolStart 0 ("bash".data) [(("c".data), ("ls".data))],
       Event.toolDone 0 ("bash".data) ("ok".data) none []]
      (some ("boom".data))).1.messages
      = [] ++ [Msg.mk Role.user ("hi".data) []] :=
  ((C6_partial_persistence (SessState.mk ("t".data) [] none 0) ("hi".data)
    [Event.toolStart 0 ("bash".data) [(("c".data), ("ls".data))],
     Event.toolDone 0 ("bash".data) ("ok".data) none []]
    ("boom".data) (by decide)).2.1 (by intro t ht; simp at ht)).1

/-- Counterexample for C6 as stated: a crashing stream that accumulated two
tool-call events but no text persists nothing — the tool calls are silently
discarded, no assistant message is appended, and no save happens. -/
theorem C6_tool_calls_discarded :
    (sendFold (SessState.mk ("t".data) [] none 0) ("hi".data)
      [Event.toolStart 0 ("bash".data) [(("c".data), ("ls".data))],
       Event.toolDone 0 ("bash".data) ("ok".data) none []]
      (some ("boom".data)))
    = (SessState.mk ("t".data) [Msg.mk Role.user ("hi".data) []] none 0,
       [Event.toolStart 0 ("bash".data) [(("c".data), ("ls".data))],
        Event.toolDone 0 ("bash".data) ("ok".data) none [],
        Event.error ("boom".data)]) := by
  decide

/-- C2 (code bug evidence): the CLI translator records the full tool input
from the later complete assistant line (second conjunct), yet the ToolDone it
emits on the closing tool_result carries the empty-dict default instead of
the recorded input (first conjunct) — the source builds ToolDoneEvent without
an input argument. -/
theorem C2_tool_done_input_dropped :
    cliRun
      [CliLine.streamEvent (CliStreamEv.blockStart (CliBlock.toolUse ("t1".data) ("bash".data))),
       CliLine.assistantLine [CliItem.toolUseItem ("t1".data) [(("command".data), ("ls".data))]],
       CliLine.userLine [CliItem.toolResultItem ("t1".data) false (Sum.inl ("ok".data))]]
    = (CliSt.mk none false none 1 [],
       [Event.toolStart 0 ("bash".data) [],
        Event.toolDone 0 ("bash".data) ("ok".data) none []]) ∧
    (cliGo (CliSt.mk none false none 0 [])
      [CliLine.streamEvent (CliStreamEv.blockStart (CliBlock.toolUse ("t1".data) ("bash".data))),
       CliLine.assistantLine [CliItem.toolUseItem ("t1".data) [(("command".data), ("ls".data))]]]).1.pendingTools
    = [PendingTool.mk ("t1".data) 0 ("bash".data) (some [(("command".data), ("ls".data))])] := by
  constructor
  · decide
  · decide

/-! ### Empty ask-form blocks the buffer (C7) -/

/-- Literal "<ask-form>". -/
def formOpenLit : List Char := ['<', 'a', 's', 'k', '-', 'f', 'o', 'r', 'm', '>']

lemma findStart_literal_shift (p : List Char → Bool) {pre : List Char} (s : List Char)
    (h : ∀ i, i < pre.length → p (pre.drop i ++ s) = false) :
    findStart p (pre ++ s) = (findStart p s).map (· + pre.length) := by
  induction pre with
  | nil => cases hq : findStart p s <;> simp [hq]
  | cons c pre ih =>
    have h0 : p (c :: (pre ++ s)) = false := by
      have := h 0 (by simp)
      simpa using this
    rw [List.cons_append, findStart_cons_false h0, ih (fun i hi => by
      have := h (i + 1) (by simpa using Nat.succ_lt_succ hi)
      simpa using this)]
    cases hq : findStart p s <;> simp [hq, Nat.add_assoc]

lemma findStart_pos_of_head_false {p : List Char → Bool} {c : Char} {t : List Char}
    (h : p (c :: t) = false) :
    ∀ a, findStart p (c :: t) = some a → 0 < a := by
  rw [findStart_cons_false h]
  intro a ha
  cases hq : findStart p t with
  | none => rw [hq] at ha; cases ha
  | some i =>
    rw [hq] at ha
    simp at ha
    omega

lemma formChildMatch_none {c : Char} (rest : List Char) (hc : c ≠ '<') :
    formChildMatch (c :: rest) = none := by
  have hb : (c == '<') = false := by simp [hc]
  simp [formChildMatch, askLit, dropLit, hb]

lemma scanChildren_no_lt (f : Nat) : ∀ m, ('<' : Char) ∉ m → scanChildren f m = [] := by
  induction f with
  | zero =>
    intro m _
    cases m <;> rfl
  | succ f ih =>
    intro m hm
    cases m with
    | nil => rfl
    | cons c rest =>
      have hc : c ≠ '<' := fun e => hm (e ▸ List.mem_cons_self c rest)
      rw [scanChildren, formChildMatch_none rest hc]
      exact ih rest (fun e => hm (List.mem_cons_of_mem _ e))

lemma c7_form_head (X : List Char) :
    formAskStartAt (formOpenLit ++ X) = true := by
  simp [formOpenLit, formAskStartAt, tagStartAt, askFormLit, List.isPrefixOf, lookForm]

lemma c7_bare_head (X : List Char) :
    bareAskStartAt (formOpenLit ++ X) = false := by
  simp [formOpenLit, bareAskStartAt, tagStartAt, askLit, List.isPrefixOf, lookBare, pyWs]

lemma c7_findStart_form (X : List Char) :
    findStart formAskStartAt (formOpenLit ++ X) = some 0 := by
  have := c7_form_head X
  rw [show formOpenLit ++ X = '<' :: ('a' :: 's' :: 'k' :: '-' :: 'f' :: 'o' :: 'r' :: 'm' :: '>' :: X) from rfl] at this ⊢
  exact findStart_cons_true this

lemma c7_firstTagPos (X : List Char) :
    firstTagPos (formOpenLit ++ X) = some (0, true) := by
  unfold firstTagPos
  rw [c7_findStart_form X]
  cases hb : findStart bareAskStartAt (formOpenLit ++ X) with
  | none => rfl
  | some a =>
    have ha : 0 < a := by
      have hhead := c7_bare_head X
      rw [show formOpenLit ++ X = '<' :: ('a' :: 's' :: 'k' :: '-' :: 'f' :: 'o' :: 'r' :: 'm' :: '>' :: X) from rfl]
        at hhead hb
      exact findStart_pos_of_head_false hhead a hb
    change (if a ≤ 0 then some (a, false) else some (0, true)) = some (0, true)
    rw [if_neg (by omega)]

lemma isPrefixOf_append_self (l x : List Char) : l.isPrefixOf (l ++ x) = true := by
  induction l with
  | nil => simp [List.isPrefixOf]
  | cons c t ih => simp [List.isPrefixOf, ih]

lemma c7_findStart_closeForm (mid post : List Char) (hmid : ('<' : Char) ∉ mid) :
    findStart closeFormAt (formOpenLit ++ (mid ++ (closeFormLit ++ post)))
      = some (mid.length + 10) := by
  rw [findStart_literal_shift closeFormAt (mid ++ (closeFormLit ++ post)) ?_]
  · rw [findStart_append_no_lt closeFormAt (fun c t => closeFormAt_head) _ hmid]
    have h0 : closeFormAt (closeFormLit ++ post) = true := by
      unfold closeFormAt
      exact isPrefixOf_append_self _ _
    rw [show closeFormLit ++ post
        = '<' :: ('/' :: 'a' :: 's' :: 'k' :: '-' :: 'f' :: 'o' :: 'r' :: 'm' :: '>' :: post) from rfl] at h0 ⊢
    rw [findStart_cons_true h0]
    simp [formOpenLit]
  · intro i hi
    simp [formOpenLit] at hi
    interval_cases i <;>
      simp [formOpenLit, closeFormAt, closeFormLit, List.isPrefixOf]

lemma c7_findStart_gt (X : List Char) :
    findStart gtAt (formOpenLit ++ X) = some 9 := by
  rw [show formOpenLit ++ X = askFormLit ++ ('>' :: X) from rfl]
  rw [findStart_literal_shift gtAt ('>' :: X) ?_]
  · rw [findStart_cons_true (by simp [gtAt])]
    simp [askFormLit]
  · intro i hi
    simp [askFormLit] at hi
    interval_cases i <;> simp [askFormLit, gtAt]

lemma c7_extract_none (mid post : List Char) (hmid : ('<' : Char) ∉ mid) (n : Nat) :
    tryExtractAskForm (formOpenLit ++ (mid ++ (closeFormLit ++ post))) n = none := by
  have hform := c7_findStart_form (mid ++ (closeFormLit ++ post))
  have hclose := c7_findStart_closeForm mid post hmid
  have hgt := c7_findStart_gt (mid ++ (closeFormLit ++ post))
  simp only [tryExtractAskForm, hform, hclose, hgt, List.drop_zero]
  rw [if_neg (by omega)]
  have hinner :
      ((formOpenLit ++ (mid ++ (closeFormLit ++ post))).take (mid.length + 10)).drop (9 + 1)
        = mid := by
    have hlen : (formOpenLit ++ mid).length = mid.length + 10 := by
      simp [formOpenLit]
    rw [show formOpenLit ++ (mid ++ (closeFormLit ++ post))
        = (formOpenLit ++ mid) ++ (closeFormLit ++ post) from by simp [List.append_assoc]]
    rw [List.take_left' hlen]
    rw [show (9 + 1) = formOpenLit.length from by simp [formOpenLit]]
    exact List.drop_left _ _
  rw [hinner]
  have hch : formChildren mid = [] := by
    unfold formChildren
    exact scanChildren_no_lt _ mid hmid
  rw [hch]
  have hq : childrenToQuestions ([] : List RawChild) = [] := rfl
  rw [if_pos hq]

lemma c7_processBuf (mid post : List Char) (hmid : ('<' : Char) ∉ mid)
    (n : Nat) (p : List Nat) :
    processBuf (formOpenLit ++ (mid ++ (closeFormLit ++ post))) n p
      = ([], formOpenLit ++ (mid ++ (closeFormLit ++ post)), n, p) := by
  unfold processBuf
  rw [processBufferF_stuck n p (c7_firstTagPos (mid ++ (closeFormLit ++ post)))
    (by simp [c7_extract_none mid post hmid n])]
  simp [textOpt]

lemma c7_flush (mid post : List Char) :
    flushForNonText (formOpenLit ++ (mid ++ (closeFormLit ++ post)))
      = ([], formOpenLit ++ (mid ++ (closeFormLit ++ post))) := by
  unfold flushForNonText
  rw [c7_firstTagPos (mid ++ (closeFormLit ++ post))]
  simp

/-- C7 (amended): a complete ask-form with zero valid children is not
treated as an interaction — no InteractionRequest or InteractionForm is
emitted — but its raw text is not flushed when it completes either: the form
blocks the buffer, and only the terminal Done flush emits it verbatim,
merged with everything after it (including any later complete tags, which
are never processed) into one raw TextChunk, followed by the forwarded
Done. -/
theorem C7_empty_form_blocks_buffer (mid post : List Char)
    (hmid : ('<' : Char) ∉ mid) :
    parseInteractions (PS.mk [] 0 [])
      [Event.textChunk (formOpenLit ++ (mid ++ (closeFormLit ++ post))), Event.done]
    = ([Event.textChunk (formOpenLit ++ (mid ++ (closeFormLit ++ post))), Event.done],
       PS.mk (formOpenLit ++ (mid ++ (closeFormLit ++ post))) 0 []) := by
  have h1 := c7_processBuf mid post hmid 0 []
  have h2 := c7_flush mid post
  have hne : formOpenLit ++ (mid ++ (closeFormLit ++ post)) ≠ [] := by
    simp [formOpenLit]
  simp only [parseInteractions]
  rw [show (PS.mk [] 0 []).buf ++ (formOpenLit ++ (mid ++ (closeFormLit ++ post)))
      = formOpenLit ++ (mid ++ (closeFormLit ++ post)) from by simp]
  rw [h1]
  simp only [parseInteractions]
  simp [h2, h1, hne]

/-- Witness for C7 (amended) at a concrete empty form followed by text. -/
theorem C7_empty_form_blocks_buffer_witness :
    parseInteractions (PS.mk [] 0 [])
      [Event.textChunk (formOpenLit ++ (("x".data) ++ (closeFormLit ++ ("tail".data)))),
       Event.done]
    = ([Event.textChunk (formOpenLit ++ (("x".data) ++ (closeFormLit ++ ("tail".data)))),
        Event.done],
       PS.mk (formOpenLit ++ (("x".data) ++ (closeFormLit ++ ("tail".data)))) 0 []) :=
  C7_empty_form_blocks_buffer ("x".data) ("tail".data) (by decide)

/-- Counterexample for C7 as stated: with a complete, valid bare ask tag
after the empty form, the parser still emits no interaction at all and only
one merged raw TextChunk at Done — the later complete tag is not processed
normally (alone, the same tag does produce an InteractionRequest). -/
theorem C7_later_tag_swallowed :
    hasInteraction (parseInteractions (PS.mk [] 0 [])
      [Event.textChunk ("<ask-form>x</ask-form><ask>q</ask>".data), Event.done]).1
      = false ∧
    (parseInteractions (PS.mk [] 0 [])
      [Event.textChunk ("<ask-form>x</ask-form><ask>q</ask>".data), Event.done]).1
      = [Event.textChunk ("<ask-form>x</ask-form><ask>q</ask>".data), Event.done] ∧
    hasInteraction (runChunks [("<ask>q</ask>".data)]) = true := by
  refine ⟨?_, ?_, ?_⟩ <;> decide

/-! ### Chunk-boundary invariance for a single bare ask tag (C3) -/

/-- Literal "<ask>". -/
def askOpenLit : List Char := ['<', 'a', 's', 'k', '>']

lemma c3_bare_head (X : List Char) :
    bareAskStartAt (askOpenLit ++ X) = true := by
  simp [askOpenLit, bareAskStartAt, tagStartAt, askLit, List.isPrefixOf, lookBare]

lemma c3_bare_some0 (X : List Char) :
    findStart bareAskStartAt (askOpenLit ++ X) = some 0 := by
  have := c3_bare_head X
  rw [show askOpenLit ++ X = '<' :: ('a' :: 's' :: 'k' :: '>' :: X) from rfl] at this ⊢
  exact findStart_cons_true this

lemma c3_form_shift (X : List Char) :
    findStart formAskStartAt (askOpenLit ++ X)
      = (findStart formAskStartAt X).map (· + 5) := by
  rw [findStart_literal_shift formAskStartAt X ?_]
  · simp [askOpenLit]
  · intro i hi
    simp [askOpenLit] at hi
    interval_cases i <;>
      simp [askOpenLit, formAskStartAt, tagStartAt, askFormLit, List.isPrefixOf]

lemma c3_close_shift (X : List Char) :
    findStart closeAskAt (askOpenLit ++ X)
      = (findStart closeAskAt X).map (· + 5) := by
  rw [findStart_literal_shift closeAskAt X ?_]
  · simp [askOpenLit]
  · intro i hi
    simp [askOpenLit] at hi
    interval_cases i <;>
      simp [askOpenLit, closeAskAt, closeAskLit, List.isPrefixOf]

lemma c3_closeLit_form_shift (X : List Char) :
    findStart formAskStartAt (closeAskLit ++ X)
      = (findStart formAskStartAt X).map (· + 6) := by
  rw [findStart_literal_shift formAskStartAt X ?_]
  · simp [closeAskLit]
  · intro i hi
    simp [closeAskLit] at hi
    interval_cases i <;>
      simp [closeAskLit, formAskStartAt, tagStartAt, askFormLit, List.isPrefixOf]

lemma c3_close_at_close (X : List Char) :
    findStart closeAskAt (closeAskLit ++ X) = some 0 := by
  have h0 : closeAskAt (closeAskLit ++ X) = true := isPrefixOf_append_self _ _
  rw [show closeAskLit ++ X = '<' :: ('/' :: 'a' :: 's' :: 'k' :: '>' :: X) from rfl] at h0 ⊢
  exact findStart_cons_true h0

lemma c3_findStart_form_none (q Y : List Char) (hq : ('<' : Char) ∉ q)
    (hY : findStart formAskStartAt Y = none) :
    findStart formAskStartAt (askOpenLit ++ (q ++ Y)) = none := by
  rw [c3_form_shift, findStart_append_no_lt formAskStartAt
    (fun c t => formAskStartAt_head) _ hq, hY]
  rfl

lemma c3_findStart_close (q Y : List Char) (hq : ('<' : Char) ∉ q)
    {k : Nat} (hY : findStart closeAskAt Y = some k) :
    findStart closeAskAt (askOpenLit ++ (q ++ Y)) = some (k + q.length + 5) := by
  rw [c3_close_shift, findStart_append_no_lt closeAskAt
    (fun c t => closeAskAt_head) _ hq, hY]
  rfl

lemma c3_findStart_close_none (q Y : List Char) (hq : ('<' : Char) ∉ q)
    (hY : findStart closeAskAt Y = none) :
    findStart closeAskAt (askOpenLit ++ (q ++ Y)) = none := by
  rw [c3_close_shift, findStart_append_no_lt closeAskAt
    (fun c t => closeAskAt_head) _ hq, hY]
  rfl

lemma c3_findStart_form_closepost (post : List Char) (hpost : ('<' : Char) ∉ post) :
    findStart formAskStartAt (closeAskLit ++ post) = none := by
  rw [c3_closeLit_form_shift,
    findStart_none_of_no_lt formAskStartAt (fun c t => formAskStartAt_head) hpost]
  rfl

lemma c3_firstTagPos (pre q post : List Char)
    (hpre : ('<' : Char) ∉ pre) (hq : ('<' : Char) ∉ q) (hpost : ('<' : Char) ∉ post) :
    firstTagPos (pre ++ (askOpenLit ++ (q ++ (closeAskLit ++ post))))
      = some (pre.length, false) := by
  unfold firstTagPos
  rw [findStart_append_no_lt bareAskStartAt (fun c t => bareAskStartAt_head) _ hpre,
    c3_bare_some0,
    findStart_append_no_lt formAskStartAt (fun c t => formAskStartAt_head) _ hpre,
    c3_findStart_form_none q (closeAskLit ++ post) hq
      (c3_findStart_form_closepost post hpost)]
  simp

lemma c3_pbf_none (f : Nat) (s : List Char) (n : Nat) (p : List Nat)
    (hf : 0 < f) (hs : ('<' : Char) ∉ s) :
    processBufferF f s n p = (textOpt s, [], n, p) := by
  cases f with
  | zero => omega
  | succ f =>
    have hft : firstTagPos s = none := by
      unfold firstTagPos
      rw [findStart_none_of_no_lt bareAskStartAt (fun c t => bareAskStartAt_head) hs,
        findStart_none_of_no_lt formAskStartAt (fun c t => formAskStartAt_head) hs]
    rw [processBufferF_none n p hft, askSuffixLen_eq_zero hs]
    simp

lemma c3_askMatch (q : List Char) (hq : ('<' : Char) ∉ q) :
    askMatch (askOpenLit ++ (q ++ closeAskLit)) = some (none, none, q) := by
  have hfs : findStart closeAskAt (q ++ closeAskLit) = some q.length := by
    rw [findStart_append_no_lt closeAskAt (fun c t => closeAskAt_head) _ hq,
      show (closeAskLit : List Char) = '<' :: ('/' :: 'a' :: 's' :: 'k' :: '>' :: []) from rfl,
      findStart_cons_true (by decide)]
    simp
  show askMatch ('<' :: 'a' :: 's' :: 'k' :: '>' :: (q ++ closeAskLit)) = some (none, none, q)
  simp [askMatch, dropLit, askLit, optAttr, attrGroup, askTail, pyWs,
    List.takeWhile, List.dropWhile, hfs, List.take_left]

lemma c3_extract (pre q post : List Char) (n : Nat)
    (hpre : ('<' : Char) ∉ pre) (hq : ('<' : Char) ∉ q) (hpost : ('<' : Char) ∉ post) :
    tryExtractBareAsk (pre ++ (askOpenLit ++ (q ++ (closeAskLit ++ post)))) n
      = some (Extracted.mk pre
          (Event.interactionRequest n (pyStrip q) textLit []) n post) := by
  have hb : findStart bareAskStartAt
      (pre ++ (askOpenLit ++ (q ++ (closeAskLit ++ post)))) = some pre.length := by
    rw [findStart_append_no_lt bareAskStartAt (fun c t => bareAskStartAt_head) _ hpre,
      c3_bare_some0]
    simp
  have hdrop : (pre ++ (askOpenLit ++ (q ++ (closeAskLit ++ post)))).drop pre.length
      = askOpenLit ++ (q ++ (closeAskLit ++ post)) := List.drop_left _ _
  have hclose : findStart closeAskAt (askOpenLit ++ (q ++ (closeAskLit ++ post)))
      = some (q.length + 5) := by
    have := c3_findStart_close q (closeAskLit ++ post) hq (c3_close_at_close post)
    simpa using this
  have hlen1 : (askOpenLit ++ (q ++ closeAskLit)).length = q.length + 5 + closeAskLit.length := by
    simp [askOpenLit, closeAskLit]
    try omega
  have hassoc : askOpenLit ++ (q ++ (closeAskLit ++ post))
      = (askOpenLit ++ (q ++ closeAskLit)) ++ post := by
    simp
  have htake : (askOpenLit ++ (q ++ (closeAskLit ++ post))).take
      (q.length + 5 + closeAskLit.length) = askOpenLit ++ (q ++ closeAskLit) := by
    rw [hassoc]
    exact List.take_left' hlen1
  have hafter : (askOpenLit ++ (q ++ (closeAskLit ++ post))).drop
      (q.length + 5 + closeAskLit.length) = post := by
    rw [hassoc]
    exact List.drop_left' hlen1
  have htakepre : (pre ++ (askOpenLit ++ (q ++ (closeAskLit ++ post)))).take pre.length
      = pre := List.take_left _ _
  simp only [tryExtractBareAsk, hb, hdrop, hclose, htake, hafter,
    c3_askMatch q hq, htakepre]
  have hnt : normType none = textLit := by decide
  have hop : optionsOf none = ([] : List (List Char)) := rfl
  rw [hnt, hop]

lemma c3_processBuf_full (pre q post : List Char) (n : Nat) (p : List Nat)
    (hpre : ('<' : Char) ∉ pre) (hq : ('<' : Char) ∉ q) (hpost : ('<' : Char) ∉ post) :
    processBuf (pre ++ (askOpenLit ++ (q ++ (closeAskLit ++ post)))) n p
      = (textOpt pre ++ Event.interactionRequest n (pyStrip q) textLit [] :: textOpt post,
         [], n + 1, p ++ [n]) := by
  set buf := pre ++ (askOpenLit ++ (q ++ (closeAskLit ++ post))) with hbuf
  have hft : firstTagPos buf = some (pre.length, false) :=
    c3_firstTagPos pre q post hpre hq hpost
  have hex : (if (false : Bool) then tryExtractAskForm buf n else tryExtractBareAsk buf n)
      = some (Extracted.mk pre (Event.interactionRequest n (pyStrip q) textLit []) n post) := by
    simpa using c3_extract pre q post n hpre hq hpost
  have hlen : 0 < buf.length := by
    rw [hbuf]
    simp [askOpenLit]
  unfold processBuf
  rw [processBufferF_extract n p hft hex,
    c3_pbf_none buf.length post (n + 1) (p ++ [n]) hlen hpost]

lemma find?_congr_local {α : Type} (f g : α → Bool) :
    ∀ l : List α, (∀ x ∈ l, f x = g x) → l.find? f = l.find? g := by
  intro l
  induction l with
  | nil => intro _; rfl
  | cons a t ih =>
    intro h
    simp only [List.find?]
    rw [h a (List.mem_cons_self a t)]
    cases g a with
    | true => rfl
    | false => exact ih (fun x hx => h x (List.mem_cons_of_mem a hx))

lemma not_suffixOf_long {P pre t : List Char} {r : List Char}
    (hP : P = '<' :: r) (hpre : ('<' : Char) ∉ pre) (hlen : t.length < P.length) :
    P.isSuffixOf (pre ++ t) = false := by
  rw [Bool.eq_false_iff]
  intro h
  obtain ⟨u, hu⟩ := List.isSuffixOf_iff_suffix.1 h
  have hlen2 : u.length + P.length = pre.length + t.length := by
    have := congrArg List.length hu
    simpa using this
  have hult : u.length < pre.length := by omega
  have hdrop : pre.drop u.length ++ t = P := by
    have h2 := congrArg (List.drop u.length) hu
    rw [List.drop_left, List.drop_append_eq_append_drop,
      Nat.sub_eq_zero_of_le (le_of_lt hult), List.drop_zero] at h2
    exact h2.symm
  cases hd : pre.drop u.length with
  | nil =>
    have := congrArg List.length hd
    simp [List.length_drop] at this
    omega
  | cons c w =>
    rw [hd, hP] at hdrop
    simp only [List.cons_append] at hdrop
    injection hdrop with h1 h2
    have hcmem : c ∈ pre.drop u.length := by
      rw [hd]
      exact List.mem_cons_self _ _
    exact hpre (h1 ▸ List.drop_subset _ _ hcmem)

lemma isSuffixOf_append_short {P t : List Char} (pre : List Char)
    (hlen : P.length ≤ t.length) :
    P.isSuffixOf (pre ++ t) = P.isSuffixOf t := by
  by_cases h : P <:+ t
  · rw [List.isSuffixOf_iff_suffix.2 h,
      List.isSuffixOf_iff_suffix.2 (h.trans (List.suffix_append pre t))]
  · have h1 : P.isSuffixOf t = false := by
      cases hb : P.isSuffixOf t with
      | false => rfl
      | true => exact absurd (List.isSuffixOf_iff_suffix.1 hb) h
    have h2 : P.isSuffixOf (pre ++ t) = false := by
      cases hb : P.isSuffixOf (pre ++ t) with
      | false => rfl
      | true =>
        exfalso
        apply h
        obtain ⟨u, hu⟩ := List.isSuffixOf_iff_suffix.1 hb
        have hlen2 : u.length + P.length = pre.length + t.length := by
          have := congrArg List.length hu
          simpa using this
        have hge : pre.length ≤ u.length := by omega
        refine ⟨u.drop pre.length, ?_⟩
        have h3 := congrArg (List.drop pre.length) hu
        rw [List.drop_left, List.drop_append_eq_append_drop,
          Nat.sub_eq_zero_of_le hge, List.drop_zero] at h3
        exact h3
    rw [h1, h2]

lemma askSuffixLen_append (pre t1 : List Char) (hpre : ('<' : Char) ∉ pre) :
    askSuffixLen (pre ++ t1) = askSuffixLen t1 := by
  have key : ∀ P ∈ possibleAskHeads,
      (fun p => p.isSuffixOf (pre ++ t1)) P = (fun p => p.isSuffixOf t1) P := by
    intro P hP
    show P.isSuffixOf (pre ++ t1) = P.isSuffixOf t1
    by_cases hlen : P.length ≤ t1.length
    · exact isSuffixOf_append_short pre hlen
    · have hr : ∃ r, P = '<' :: r := by
        fin_cases hP <;> exact ⟨_, rfl⟩
      obtain ⟨r, hr⟩ := hr
      rw [not_suffixOf_long hr hpre (by omega)]
      symm
      cases hb : P.isSuffixOf t1 with
      | false => rfl
      | true =>
        have := (List.isSuffixOf_iff_suffix.1 hb).length_le
        omega
  unfold askSuffixLen
  rw [find?_congr_local _ _ possibleAskHeads key]

lemma c3_pbf_partial (f : Nat) (pre t1 : List Char) (n : Nat) (p : List Nat)
    (hf : 0 < f) (hpre : ('<' : Char) ∉ pre)
    (hb : findStart bareAskStartAt t1 = none)
    (hfm : findStart formAskStartAt t1 = none)
    (hkeep : askSuffixLen t1 = t1.length) :
    processBufferF f (pre ++ t1) n p = (textOpt pre, t1, n, p) := by
  cases f with
  | zero => omega
  | succ f =>
    have hft : firstTagPos (pre ++ t1) = none := by
      unfold firstTagPos
      rw [findStart_append_no_lt bareAskStartAt (fun c t => bareAskStartAt_head) _ hpre, hb,
        findStart_append_no_lt formAskStartAt (fun c t => formAskStartAt_head) _ hpre, hfm]
      rfl
    rw [processBufferF_none n p hft, askSuffixLen_append pre t1 hpre, hkeep]
    have hl : (pre ++ t1).length - t1.length = pre.length := by simp
    rw [hl, List.take_left, List.drop_left]

lemma c3_pbf_open (f : Nat) (pre m : List Char) (n : Nat) (p : List Nat)
    (hf : 0 < f) (hpre : ('<' : Char) ∉ pre)
    (hmf : findStart formAskStartAt (askOpenLit ++ m) = none)
    (hmc : findStart closeAskAt (askOpenLit ++ m) = none) :
    processBufferF f (pre ++ (askOpenLit ++ m)) n p
      = (textOpt pre, askOpenLit ++ m, n, p) := by
  cases f with
  | zero => omega
  | succ f =>
    have hbare : findStart bareAskStartAt (pre ++ (askOpenLit ++ m)) = some pre.length := by
      rw [findStart_append_no_lt bareAskStartAt (fun c t => bareAskStartAt_head) _ hpre,
        c3_bare_some0]
      simp
    have hform : findStart formAskStartAt (pre ++ (askOpenLit ++ m)) = none := by
      rw [findStart_append_no_lt formAskStartAt (fun c t => formAskStartAt_head) _ hpre, hmf]
      rfl
    have hft : firstTagPos (pre ++ (askOpenLit ++ m)) = some (pre.length, false) := by
      unfold firstTagPos
      rw [hbare, hform]
    have hex : tryExtractBareAsk (pre ++ (askOpenLit ++ m)) n = none := by
      unfold tryExtractBareAsk
      rw [hbare]
      simp only [List.drop_left, hmc]
    have hex2 : (if (false : Bool) then tryExtractAskForm (pre ++ (askOpenLit ++ m)) n
        else tryExtractBareAsk (pre ++ (askOpenLit ++ m)) n) = none := by
      simpa using hex
    rw [processBufferF_stuck n p hft hex2, List.take_left, List.drop_left]

lemma consText_nil (s : List Char) : consText s [] = textOpt s := by
  by_cases hs : s = [] <;> simp [consText, textOpt, hs]

lemma consText_consText (a b : List Char) (l : List Event) :
    consText a (consText b l) = consText (a ++ b) l := by
  by_cases ha : a = []
  · simp [consText, ha]
  · by_cases hb : b = []
    · simp [consText, hb]
    · have hab : a ++ b ≠ [] := fun h => ha (List.append_eq_nil.1 h).1
      cases l with
      | nil => simp [consText, ha, hb, hab]
      | cons e r =>
        cases e <;> simp [consText, ha, hb, hab, List.append_assoc]

lemma norm_textOpt_append (s : List Char) (l : List Event) :
    norm (textOpt s ++ l) = consText s (norm l) := by
  by_cases hs : s = []
  · simp [textOpt, hs, consText]
  · simp [textOpt, hs, norm]

lemma runChunks_one (a : List Char) :
    runChunks [a] = (processBuf a 0 []).1 := by
  simp [runChunks, parseInteractions]

lemma runChunks_two (a b : List Char) :
    runChunks [a, b]
      = (processBuf a 0 []).1
        ++ (processBuf ((processBuf a 0 []).2.1 ++ b)
            (processBuf a 0 []).2.2.1 (processBuf a 0 []).2.2.2).1 := by
  simp [runChunks, parseInteractions]

lemma take_full : ∀ (l : List Char) (n : Nat), l.length ≤ n → l.take n = l := by
  intro l
  induction l with
  | nil => intro n _; simp
  | cons c t ih =>
    intro n hn
    cases n with
    | zero => simp at hn
    | succ m =>
      rw [List.take_succ_cons, ih m (by simpa using hn)]

lemma drop_full : ∀ (l : List Char) (n : Nat), l.length ≤ n → l.drop n = [] := by
  intro l
  induction l with
  | nil => intro n _; simp
  | cons c t ih =>
    intro n hn
    cases n with
    | zero => simp at hn
    | succ m =>
      rw [List.drop_succ_cons, ih m (by simpa using hn)]

lemma findStart_none_short (p : List Char → Bool) (B : Nat)
    (hp : ∀ l, p l = true → B ≤ l.length) :
    ∀ l : List Char, l.length < B → findStart p l = none := by
  intro l
  induction l with
  | nil => intro _; rfl
  | cons c t ih =>
    intro hl
    have hfalse : p (c :: t) = false := by
      cases hb : p (c :: t) with
      | false => rfl
      | true =>
        have := hp _ hb
        simp only [List.length_cons] at hl this
        omega
    rw [findStart_cons_false hfalse,
      ih (by simp only [List.length_cons] at hl; omega)]
    rfl

lemma closeAskAt_len {l : List Char} (h : closeAskAt l = true) :
    (closeAskLit : List Char).length ≤ l.length := by
  unfold closeAskAt at h
  exact (List.isPrefixOf_iff_prefix.1 h).length_le

lemma formAskStartAt_len {l : List Char} (h : formAskStartAt l = true) :
    (askFormLit : List Char).length ≤ l.length := by
  unfold formAskStartAt tagStartAt at h
  rw [Bool.and_eq_true] at h
  exact (List.isPrefixOf_iff_prefix.1 h.1).length_le

lemma c3_mid_close_none (q : List Char) (hq : ('<' : Char) ∉ q)
    (s : Nat) (hs : s ≤ q.length + 5) :
    findStart closeAskAt ((q ++ closeAskLit).take s) = none := by
  by_cases hsq : s ≤ q.length
  · have ht : (q ++ closeAskLit).take s = q.take s := by
      rw [List.take_append_eq_append_take, Nat.sub_eq_zero_of_le hsq,
        List.take_zero, List.append_nil]
    rw [ht]
    exact findStart_none_of_no_lt closeAskAt (fun c t => closeAskAt_head)
      (fun h => hq (List.take_subset _ _ h))
  · have ht : (q ++ closeAskLit).take s = q ++ closeAskLit.take (s - q.length) := by
      rw [List.take_append_eq_append_take, take_full q s (by omega)]
    have hshort : (closeAskLit.take (s - q.length)).length < (closeAskLit : List Char).length := by
      rw [List.length_take]
      have h6 : (closeAskLit : List Char).length = 6 := rfl
      omega
    rw [ht, findStart_append_no_lt closeAskAt (fun c t => closeAskAt_head) _ hq,
      findStart_none_short closeAskAt (closeAskLit : List Char).length
        (fun l h => closeAskAt_len h) _ hshort]
    rfl

lemma c3_mid_form_none (q : List Char) (hq : ('<' : Char) ∉ q) (s : Nat) :
    findStart formAskStartAt ((q ++ closeAskLit).take s) = none := by
  by_cases hsq : s ≤ q.length
  · have ht : (q ++ closeAskLit).take s = q.take s := by
      rw [List.take_append_eq_append_take, Nat.sub_eq_zero_of_le hsq,
        List.take_zero, List.append_nil]
    rw [ht]
    exact findStart_none_of_no_lt formAskStartAt (fun c t => formAskStartAt_head)
      (fun h => hq (List.take_subset _ _ h))
  · have ht : (q ++ closeAskLit).take s = q ++ closeAskLit.take (s - q.length) := by
      rw [List.take_append_eq_append_take, take_full q s (by omega)]
    have hshort : (closeAskLit.take (s - q.length)).length < (askFormLit : List Char).length := by
      rw [List.length_take]
      have h6 : (closeAskLit : List Char).length = 6 := rfl
      have h9 : (askFormLit : List Char).length = 9 := rfl
      omega
    rw [ht, findStart_append_no_lt formAskStartAt (fun c t => formAskStartAt_head) _ hq,
      findStart_none_short formAskStartAt (askFormLit : List Char).length
        (fun l h => formAskStartAt_len h) _ hshort]
    rfl

lemma norm_cons_ir (i : Nat) (s t : List Char) (o : List (List Char)) (l : List Event) :
    norm (Event.interactionRequest i s t o :: l)
      = Event.interactionRequest i s t o :: norm l := by
  simp [norm]

lemma norm_textOpt (s : List Char) : norm (textOpt s) = consText s [] := by
  have h := norm_textOpt_append s []
  simpa [norm] using h

/-- Claim C3 (amended): for an input pre ++ "<ask>" ++ q ++ "</ask>" ++ post in
which pre, q and post contain no angle bracket, splitting the input into two
TextChunk deliveries at any byte offset yields the same final event sequence
as the unsplit delivery only up to coalescing of adjacent TextChunks: the
normalized outputs agree for every offset k. -/
theorem C3_split_coalesced_equality (pre q post : List Char) (k : Nat)
    (hpre : ('<' : Char) ∉ pre) (hq : ('<' : Char) ∉ q) (hpost : ('<' : Char) ∉ post) :
    norm (runChunks [(pre ++ (askOpenLit ++ (q ++ (closeAskLit ++ post)))).take k,
        (pre ++ (askOpenLit ++ (q ++ (closeAskLit ++ post)))).drop k])
      = norm (runChunks [pre ++ (askOpenLit ++ (q ++ (closeAskLit ++ post)))]) := by
  have hwhole : runChunks [pre ++ (askOpenLit ++ (q ++ (closeAskLit ++ post)))]
      = textOpt pre ++ Event.interactionRequest 0 (pyStrip q) textLit [] :: textOpt post := by
    rw [runChunks_one, c3_processBuf_full pre q post 0 [] hpre hq hpost]
  rw [hwhole]
  by_cases hA : k ≤ pre.length
  · have htake : (pre ++ (askOpenLit ++ (q ++ (closeAskLit ++ post)))).take k
        = pre.take k := by
      rw [List.take_append_eq_append_take, Nat.sub_eq_zero_of_le hA, List.take_zero,
        List.append_nil]
    have hdrop : (pre ++ (askOpenLit ++ (q ++ (closeAskLit ++ post)))).drop k
        = pre.drop k ++ (askOpenLit ++ (q ++ (closeAskLit ++ post))) := by
      rw [List.drop_append_eq_append_drop, Nat.sub_eq_zero_of_le hA, List.drop_zero]
    have hc1 : processBuf (pre.take k) 0 [] = (textOpt (pre.take k), [], 0, []) := by
      unfold processBuf
      exact c3_pbf_none _ _ _ _ (Nat.succ_pos _) (fun hm => hpre (List.take_subset _ _ hm))
    have hc2 : processBuf (pre.drop k ++ (askOpenLit ++ (q ++ (closeAskLit ++ post)))) 0 []
        = (textOpt (pre.drop k)
            ++ Event.interactionRequest 0 (pyStrip q) textLit [] :: textOpt post,
           [], 1, [0]) := by
      have h := c3_processBuf_full (pre.drop k) q post 0 []
        (fun hm => hpre (List.drop_subset _ _ hm)) hq hpost
      simpa using h
    rw [runChunks_two, htake, hdrop, hc1]
    dsimp only
    rw [List.nil_append, hc2]
    dsimp only
    simp only [norm_textOpt_append, norm_cons_ir, norm_textOpt, consText_consText,
      List.take_append_drop]
  · by_cases hB : k ≤ pre.length + 4
    · obtain ⟨j, hk⟩ : ∃ j, k = pre.length + j := ⟨k - pre.length, by omega⟩
      subst hk
      have hj1 : 1 ≤ j := by omega
      have hj4 : j ≤ 4 := by omega
      have h5 : (askOpenLit : List Char).length = 5 := rfl
      have hb : findStart bareAskStartAt (askOpenLit.take j) = none := by
        interval_cases j <;> decide
      have hfm2 : findStart formAskStartAt (askOpenLit.take j) = none := by
        interval_cases j <;> decide
      have hkeep : askSuffixLen (askOpenLit.take j) = (askOpenLit.take j).length := by
        interval_cases j <;> decide
      have hsub : j - (askOpenLit : List Char).length = 0 := by omega
      have ht1 : pre.take (pre.length + j) = pre := take_full _ _ (by omega)
      have hd1 : pre.drop (pre.length + j) = [] := drop_full _ _ (by omega)
      have htake : (pre ++ (askOpenLit ++ (q ++ (closeAskLit ++ post)))).take (pre.length + j)
          = pre ++ askOpenLit.take j := by
        rw [List.take_append_eq_append_take, ht1, Nat.add_sub_cancel_left,
          List.take_append_eq_append_take, hsub, List.take_zero, List.append_nil]
      have hdrop : (pre ++ (askOpenLit ++ (q ++ (closeAskLit ++ post)))).drop (pre.length + j)
          = askOpenLit.drop j ++ (q ++ (closeAskLit ++ post)) := by
        rw [List.drop_append_eq_append_drop, hd1, Nat.add_sub_cancel_left, List.nil_append,
          List.drop_append_eq_append_drop, hsub, List.drop_zero]
      have hc1 : processBuf (pre ++ askOpenLit.take j) 0 []
          = (textOpt pre, askOpenLit.take j, 0, []) := by
        unfold processBuf
        exact c3_pbf_partial _ _ _ _ _ (Nat.succ_pos _) hpre hb hfm2 hkeep
      have hassoc2 : askOpenLit.take j ++ (askOpenLit.drop j ++ (q ++ (closeAskLit ++ post)))
          = askOpenLit ++ (q ++ (closeAskLit ++ post)) := by
        rw [← List.append_assoc, List.take_append_drop]
      have hc2 : processBuf
          (askOpenLit.take j ++ (askOpenLit.drop j ++ (q ++ (closeAskLit ++ post)))) 0 []
          = (Event.interactionRequest 0 (pyStrip q) textLit [] :: textOpt post,
             [], 1, [0]) := by
        rw [hassoc2]
        have h := c3_processBuf_full [] q post 0 [] (by simp) hq hpost
        simpa [textOpt] using h
      rw [runChunks_two, htake, hdrop, hc1]
      dsimp only
      rw [hc2]
    · by_cases hCD : k ≤ pre.length + 5 + (q.length + 5)
      · obtain ⟨s, hk⟩ : ∃ s, k = pre.length + 5 + s := ⟨k - pre.length - 5, by omega⟩
        subst hk
        have hs : s ≤ q.length + 5 := by omega
        have h5 : (askOpenLit : List Char).length = 5 := rfl
        have h6 : (closeAskLit : List Char).length = 6 := rfl
        have hWlen : (q ++ closeAskLit).length = q.length + 6 := by
          rw [List.length_append, h6]
        have ht1 : pre.take (pre.length + 5 + s) = pre := take_full _ _ (by omega)
        have hd1 : pre.drop (pre.length + 5 + s) = [] := drop_full _ _ (by omega)
        have ha1 : pre.length + 5 + s - pre.length = 5 + s := by omega
        have ht2 : askOpenLit.take (5 + s) = askOpenLit := take_full _ _ (by omega)
        have hd2 : askOpenLit.drop (5 + s) = [] := drop_full _ _ (by omega)
        have ha2 : 5 + s - (askOpenLit : List Char).length = s := by omega
        have ht3 : s - (q ++ closeAskLit).length = 0 := by omega
        have hassoc : q ++ (closeAskLit ++ post) = (q ++ closeAskLit) ++ post := by
          rw [List.append_assoc]
        have htake : (pre ++ (askOpenLit ++ (q ++ (closeAskLit ++ post)))).take
            (pre.length + 5 + s)
            = pre ++ (askOpenLit ++ (q ++ closeAskLit).take s) := by
          rw [List.take_append_eq_append_take, ht1, ha1,
            List.take_append_eq_append_take, ht2, ha2, hassoc,
            List.take_append_eq_append_take, ht3, List.take_zero, List.append_nil]
        have hdrop : (pre ++ (askOpenLit ++ (q ++ (closeAskLit ++ post)))).drop
            (pre.length + 5 + s)
            = (q ++ closeAskLit).drop s ++ post := by
          rw [List.drop_append_eq_append_drop, hd1, ha1, List.nil_append,
            List.drop_append_eq_append_drop, hd2, ha2, List.nil_append, hassoc,
            List.drop_append_eq_append_drop, ht3, List.drop_zero]
        have hc1 : processBuf (pre ++ (askOpenLit ++ (q ++ closeAskLit).take s)) 0 []
            = (textOpt pre, askOpenLit ++ (q ++ closeAskLit).take s, 0, []) := by
          unfold processBuf
          refine c3_pbf_open _ _ _ _ _ (Nat.succ_pos _) hpre ?_ ?_
          · rw [c3_form_shift, c3_mid_form_none q hq s]
            rfl
          · rw [c3_close_shift, c3_mid_close_none q hq s hs]
            rfl
        have hassoc2 : (askOpenLit ++ (q ++ closeAskLit).take s)
            ++ ((q ++ closeAskLit).drop s ++ post)
            = askOpenLit ++ (q ++ (closeAskLit ++ post)) := by
          rw [List.append_assoc, ← List.append_assoc ((q ++ closeAskLit).take s),
            List.take_append_drop, List.append_assoc q]
        have hc2 : processBuf ((askOpenLit ++ (q ++ closeAskLit).take s)
            ++ ((q ++ closeAskLit).drop s ++ post)) 0 []
            = (Event.interactionRequest 0 (pyStrip q) textLit [] :: textOpt post,
               [], 1, [0]) := by
          rw [hassoc2]
          have h := c3_processBuf_full [] q post 0 [] (by simp) hq hpost
          simpa [textOpt] using h
        rw [runChunks_two, htake, hdrop, hc1]
        dsimp only
        rw [hc2]
      · obtain ⟨e, hk⟩ : ∃ e, k = pre.length + 11 + q.length + e :=
          ⟨k - (pre.length + 11 + q.length), by omega⟩
        subst hk
        have h5 : (askOpenLit : List Char).length = 5 := rfl
        have h6 : (closeAskLit : List Char).length = 6 := rfl
        have hpt : ('<' : Char) ∉ post.take e := fun hm => hpost (List.take_subset _ _ hm)
        have hpd : ('<' : Char) ∉ post.drop e := fun hm => hpost (List.drop_subset _ _ hm)
        have ht1 : pre.take (pre.length + 11 + q.length + e) = pre := take_full _ _ (by omega)
        have hd1 : pre.drop (pre.length + 11 + q.length + e) = [] := drop_full _ _ (by omega)
        have ha1 : pre.length + 11 + q.length + e - pre.length = 11 + q.length + e := by omega
        have ht2 : askOpenLit.take (11 + q.length + e) = askOpenLit := take_full _ _ (by omega)
        have hd2 : askOpenLit.drop (11 + q.length + e) = [] := drop_full _ _ (by omega)
        have ha2 : 11 + q.length + e - (askOpenLit : List Char).length
            = 6 + q.length + e := by omega
        have ht3 : q.take (6 + q.length + e) = q := take_full _ _ (by omega)
        have hd3 : q.drop (6 + q.length + e) = [] := drop_full _ _ (by omega)
        have ha3 : 6 + q.length + e - q.length = 6 + e := by omega
        have ht4 : closeAskLit.take (6 + e) = closeAskLit := take_full _ _ (by omega)
        have hd4 : closeAskLit.drop (6 + e) = [] := drop_full _ _ (by omega)
        have ha4 : 6 + e - (closeAskLit : List Char).length = e := by omega
        have htake : (pre ++ (askOpenLit ++ (q ++ (closeAskLit ++ post)))).take
            (pre.length + 11 + q.length + e)
            = pre ++ (askOpenLit ++ (q ++ (closeAskLit ++ post.take e))) := by
          rw [List.take_append_eq_append_take, ht1, ha1,
            List.take_append_eq_append_take, ht2, ha2,
            List.take_append_eq_append_take, ht3, ha3,
            List.take_append_eq_append_take, ht4, ha4]
        have hdrop : (pre ++ (askOpenLit ++ (q ++ (closeAskLit ++ post)))).drop
            (pre.length + 11 + q.length + e)
            = post.drop e := by
          rw [List.drop_append_eq_append_drop, hd1, ha1, List.nil_append,
            List.drop_append_eq_append_drop, hd2, ha2, List.nil_append,
            List.drop_append_eq_append_drop, hd3, ha3, List.nil_append,
            List.drop_append_eq_append_drop, hd4, ha4, List.nil_append]
        have hc1 : processBuf (pre ++ (askOpenLit ++ (q ++ (closeAskLit ++ post.take e)))) 0 []
            = (textOpt pre ++ Event.interactionRequest 0 (pyStrip q) textLit []
                :: textOpt (post.take e),
               [], 1, [0]) := by
          have h := c3_processBuf_full pre q (post.take e) 0 [] hpre hq hpt
          simpa using h
        have hc2 : processBuf ([] ++ post.drop e) 1 [0]
            = (textOpt (post.drop e), [], 1, [0]) := by
          rw [List.nil_append]
          unfold processBuf
          exact c3_pbf_none _ _ _ _ (Nat.succ_pos _) hpd
        rw [runChunks_two, htake, hdrop, hc1]
        dsimp only
        rw [hc2]
        dsimp only
        simp only [List.append_assoc, List.cons_append, norm_textOpt_append, norm_cons_ir,
          norm_textOpt, consText_consText, List.take_append_drop]

/-- Claim C3 counterexample: splitting the input "ab<ask>q</ask>" after its
first byte makes the parser emit two TextChunks ("a", then "b") where the
unsplit delivery emits a single TextChunk "ab", so the final event sequences
are not identical. -/
theorem C3_split_changes_event_sequence :
    runChunks [("ab<ask>q</ask>".data).take 1, ("ab<ask>q</ask>".data).drop 1]
      ≠ runChunks [("ab<ask>q</ask>".data)] := by decide

/-- Claim C3 witness: the amended equality applied at pre = "ab", q = "q",
post = "c" and split offset 3. -/
theorem C3_split_coalesced_equality_witness :
    (('<' : Char) ∉ "ab".data) ∧ (('<' : Char) ∉ "q".data) ∧ (('<' : Char) ∉ "c".data)
      ∧ norm (runChunks
            [(("ab".data) ++ (askOpenLit ++ (("q".data) ++ (closeAskLit ++ ("c".data))))).take 3,
             (("ab".data) ++ (askOpenLit ++ (("q".data) ++ (closeAskLit ++ ("c".data))))).drop 3])
        = norm (runChunks
            [("ab".data) ++ (askOpenLit ++ (("q".data) ++ (closeAskLit ++ ("c".data))))]) :=
  ⟨by decide, by decide, by decide,
    C3_split_coalesced_equality ("ab".data) ("q".data) ("c".data) 3
      (by decide) (by decide) (by decide)⟩

end Yap
